import Mathlib

/-!
Verification development for the ISO BMFF (MP4) box library: element kinds,
the box schema registry (BOXSPEC), Box construction / serialization / loading,
and Container.parse with media-track discovery.

Buffers are modelled as `List Nat` of byte values; JS numbers are modelled as
`Int` (for element values) or `Nat` (for lengths and offsets).  JS typed-array
stores out of bounds are silently dropped, which is exactly the behaviour of
`List.set`.  The float split used by `UInt64BE` is modelled with exact integer
arithmetic, which agrees with IEEE doubles on the documented domain
`0 ≤ v < 2^53`.
-/

set_option maxRecDepth 2000
set_option linter.unnecessarySeqFocus false
set_option linter.unreachableTactic false
set_option linter.unusedTactic false

namespace Isom

/-- Modelled from the spec: `decode(bytes)` from `utils/bytes` (not in the
repository snapshot) interprets a byte slice as ASCII, each byte becoming one
code point, with no UTF-8 validation. -/
def decode (bs : List Nat) : String := ⟨bs.map Char.ofNat⟩

/-- Modelled from the spec: `readUInt8` returns the byte at `offset`;
out-of-range access fails (`InsufficientBytes`). -/
def readUInt8 (buf : List Nat) (off : Nat) : Option Nat :=
  if off + 1 ≤ buf.length then some (buf.getD off 0) else none

/-- Modelled from the spec: big-endian 16-bit read; out-of-range access fails. -/
def readUInt16BE (buf : List Nat) (off : Nat) : Option Nat :=
  if off + 2 ≤ buf.length then
    some (256 * buf.getD off 0 + buf.getD (off + 1) 0)
  else none

/-- Modelled from the spec: big-endian 24-bit read; out-of-range access fails. -/
def readUInt24BE (buf : List Nat) (off : Nat) : Option Nat :=
  if off + 3 ≤ buf.length then
    some (65536 * buf.getD off 0 + 256 * buf.getD (off + 1) 0 + buf.getD (off + 2) 0)
  else none

/-- Modelled from the spec: big-endian 32-bit read; out-of-range access fails. -/
def readUInt32BE (buf : List Nat) (off : Nat) : Option Nat :=
  if off + 4 ≤ buf.length then
    some (16777216 * buf.getD off 0 + 65536 * buf.getD (off + 1) 0 +
      256 * buf.getD (off + 2) 0 + buf.getD (off + 3) 0)
  else none

/-- Modelled from the spec: `writeUInt8` writes one byte; values outside
`[0, 2^8)` fail (`ValueOutOfRange`).  An out-of-bounds store is dropped, as a
JS typed-array store is (`List.set` has the same behaviour). -/
def writeUInt8 (buf : List Nat) (off : Nat) (v : Int) : Option (List Nat) :=
  if 0 ≤ v ∧ v < 256 then some (buf.set off v.toNat) else none

/-- Modelled from the spec: big-endian 16-bit write; values outside `[0, 2^16)`
fail (`ValueOutOfRange`). -/
def writeUInt16BE (buf : List Nat) (off : Nat) (v : Int) : Option (List Nat) :=
  if 0 ≤ v ∧ v < 65536 then
    some ((buf.set off (v.toNat / 256)).set (off + 1) (v.toNat % 256))
  else none

/-- Modelled from the spec: big-endian 24-bit write; values outside `[0, 2^24)`
fail (`ValueOutOfRange`). -/
def writeUInt24BE (buf : List Nat) (off : Nat) (v : Int) : Option (List Nat) :=
  if 0 ≤ v ∧ v < 16777216 then
    some (((buf.set off (v.toNat / 65536)).set (off + 1) (v.toNat / 256 % 256)).set
      (off + 2) (v.toNat % 256))
  else none

/-- Modelled from the spec: big-endian 32-bit write; values outside `[0, 2^32)`
fail (`ValueOutOfRange`). -/
def writeUInt32BE (buf : List Nat) (off : Nat) (v : Int) : Option (List Nat) :=
  if 0 ≤ v ∧ v < 4294967296 then
    some ((((buf.set off (v.toNat / 16777216)).set (off + 1) (v.toNat / 65536 % 256)).set
      (off + 2) (v.toNat / 256 % 256)).set (off + 3) (v.toNat % 256))
  else none

/-- Mirrors `buffer.fill(0, offset, offset + byteLength)` in `Empty.copy`:
zero `n` bytes starting at `off`; stores past the end are dropped. -/
def fillZero : List Nat → Nat → Nat → List Nat
  | buf, _, 0 => buf
  | buf, off, n + 1 => fillZero (buf.set off 0) (off + 1) n

/-- Mirrors `buffer.set(value, offset)` in `ByteArray.copy` once the bounds
check has passed: store the bytes one after another. -/
def storeBytes : List Nat → Nat → List Nat → List Nat
  | buf, _, [] => buf
  | buf, off, b :: bs => storeBytes (buf.set off (b % 256)) (off + 1) bs

/-- JS `ToInt32`, used by the `| 0` in `UInt64BE.copy`.  `Int.bmod n (2^32)`
produces the representative in `[-2^31, 2^31)`. -/
def jsToInt32 (n : Int) : Int := (n + 2147483648) % 4294967296 - 2147483648

/-- JS `ToUint32`, used by the unsigned right shift in the `esds` track
extraction (`audioConfigBytes[0] >>> 3`). -/
def jsToUint32 (n : Int) : Nat := (n % 4294967296).toNat

/-- Decimal digit list of `n` (most significant first), with fuel so the
definition is structural and reduces inside the kernel.  With `fuel ≥ n` this
is the usual decimal numeral. -/
def decDigitsF : Nat → Nat → List Char
  | 0, _ => []
  | fuel + 1, n =>
    if n = 0 then [] else decDigitsF fuel (n / 10) ++ [Char.ofNat (48 + n % 10)]

/-- Decimal rendering of a natural number, the model of JS number-to-string
conversion in template literals such as `box_${n}` and `mp4a.40.${oti}`. -/
def decStr (n : Nat) : String := if n = 0 then "0" else ⟨decDigitsF n n⟩

/-- Hexadecimal digit as a lowercase character, as JS `toString(16)` emits. -/
def hexDigitChar (n : Nat) : Char :=
  if n < 10 then Char.ofNat (48 + n) else Char.ofNat (87 + n)

/-- Hexadecimal digit list of `n` (most significant first), fuelled like
`decDigitsF`. -/
def hexDigitsF : Nat → Nat → List Char
  | 0, _ => []
  | fuel + 1, n =>
    if n = 0 then [] else hexDigitsF fuel (n / 16) ++ [hexDigitChar (n % 16)]

/-- JS `n.toString(16)` for a non-negative number. -/
def natToHex (n : Nat) : String := if n = 0 then "0" else ⟨hexDigitsF n n⟩

/-- JS `n.toString(16).padStart(2, 0)`, used for each byte of the `avc1.PPCCLL`
codec string. -/
def jsHex2 (n : Nat) : String :=
  let s := natToHex n
  if s.length < 2 then "0" ++ s else s

/-- The synthetic field name `box_${i}` used by `Container.append`. -/
def boxKey (n : Nat) : String := "box_" ++ decStr n

/-- Values held by box elements: JS numbers, strings, number arrays, byte
arrays (`Uint8Array`), arrays of byte-sequences (the constructor argument of a
`ParameterSetArray`), and the flattened element list a constructed
`ParameterSetArray` stores (represented by its size mask and its
byte-sequences).  `undef` is JS `undefined`, the value of an `Empty` element
and of a box used as an element. -/
inductive EValue where
  | undef
  | num (n : Int)
  | str (s : String)
  | arr (vs : List Int)
  | bytes (bs : List Nat)
  | sets (ss : List (List Int))
  | psa (mask : Nat) (ss : List (List Int))
  deriving DecidableEq, Repr

/-- Runtime element kinds, one per `BoxElement` subclass. -/
inductive PKind where
  | empty
  | charArray
  | uint8
  | uint16
  | uint24
  | uint32
  | uint64
  | uint8Array
  | uint16Array
  | uint32Array
  | byteArray
  | paramSetArray
  deriving DecidableEq, Repr

/-- An element (`prim`, with its stored `byteLength` and `value`) or a child
box used as an element (a `Box` extends `BoxElement`; its dead `value`
property is kept for fidelity).  `byteLength` is stored at construction and is
never recomputed, so it can go stale when `value` is reassigned. -/
inductive Elem where
  | prim (kind : PKind) (byteLength : Nat) (value : EValue)
  | box (type : String) (boxSize : Nat) (byteLength : Nat) (value : EValue)
      (struct : List (String × Nat × Elem))
  deriving Repr

/-- One entry of a box `struct` map: name, offset, element (insertion order). -/
abbrev Entry := String × Nat × Elem

/-- The `Box` entity: its four-character `type`, the `boxSize` child counter
(used only by `Container.append`), the total `byteLength`, the dead `value`
property inherited from `BoxElement`, and the insertion-ordered `struct`. -/
structure Box where
  type : String
  boxSize : Nat
  byteLength : Nat
  value : EValue
  struct : List Entry
  deriving Repr

def Box.toElem (b : Box) : Elem := .box b.type b.boxSize b.byteLength b.value b.struct

def elemByteLength : Elem → Nat
  | .prim _ bl _ => bl
  | .box _ _ bl _ _ => bl

def elemValue : Elem → EValue
  | .prim _ _ v => v
  | .box _ _ _ v _ => v

def elemKind : Elem → Option PKind
  | .prim k _ _ => some k
  | .box _ _ _ _ _ => none

/-- Reassigning `element.value = v`; the stored `byteLength` is untouched. -/
def elemSetValue : Elem → EValue → Elem
  | .prim k bl _, v => .prim k bl v
  | .box t bs bl _ st, v => .box t bs bl v st

/-- Declared element kinds as they appear in `BOXSPEC` bodies; `psa mask` is
`createParameterSetArrayClass(mask)`. -/
inductive DKind where
  | empty
  | charArray
  | uint8
  | uint16
  | uint24
  | uint32
  | uint64
  | uint8Array
  | uint16Array
  | uint32Array
  | psa (mask : Nat)
  deriving DecidableEq, Repr

/-- A body / header field descriptor `[name, Type, defaultValue]`. -/
structure Descr where
  name : String
  kind : DKind
  dflt : EValue
  deriving DecidableEq, Repr

/-- The `byteLength` computed by the `ParameterSetArray` constructor: the sum
of the byte lengths of its flattened element list
`[UInt8(mask | count)] ++ (for each set: UInt16BE(length), UInt8Array(set))`,
which is `1 + Σ (2 + len(ps_i))`. -/
def psaByteLength (ss : List (List Int)) : Nat :=
  1 + (ss.map fun s => 2 + s.length).sum

/-- Element instantiation `new Type(value)`.  A value whose shape does not fit
the constructor would propagate `undefined`/type errors in JS and is modelled
as a construction failure; a negative `Empty` size would give the box a
negative byte length and is likewise rejected. -/
def newElem : DKind → EValue → Option Elem
  | .empty, .num n => if 0 ≤ n then some (.prim .empty n.toNat .undef) else none
  | .charArray, .str s => some (.prim .charArray s.length (.str s))
  | .uint8, .num n => some (.prim .uint8 1 (.num n))
  | .uint16, .num n => some (.prim .uint16 2 (.num n))
  | .uint24, .num n => some (.prim .uint24 3 (.num n))
  | .uint32, .num n => some (.prim .uint32 4 (.num n))
  | .uint64, .num n => some (.prim .uint64 8 (.num n))
  | .uint8Array, .arr vs => some (.prim .uint8Array vs.length (.arr vs))
  | .uint8Array, .bytes bs =>
    some (.prim .uint8Array bs.length (.arr (bs.map Int.ofNat)))
  | .uint16Array, .arr vs => some (.prim .uint16Array (2 * vs.length) (.arr vs))
  | .uint32Array, .arr vs => some (.prim .uint32Array (4 * vs.length) (.arr vs))
  | .psa mask, .sets ss => some (.prim .paramSetArray (psaByteLength ss) (.psa mask ss))
  | _, _ => none

/-- The `ByteArray` element (encoder-only, used with `Box.add`). -/
def mkByteArray (bs : List Nat) : Elem := .prim .byteArray bs.length (.bytes bs)

/-- Header kinds of the registry (`'None' | 'Box' | 'FullBox'`). -/
inductive HKind where
  | hNone
  | hBox
  | hFullBox
  deriving DecidableEq, Repr

/-- A `(key: value)` configuration object. -/
abbrev Config := List (String × EValue)

def cfgFind (c : Config) (k : String) : Option EValue :=
  (c.find? fun p => p.1 == k).map (·.2)

/-- One registry entry, with the same fields as the source `BoxSpec`
interface (the `container`/`mandatory`/`quantity` metadata is inert). -/
structure BoxSpec where
  container : Option String := none
  mandatory : Option Bool := none
  quantity : Option String := none
  box : HKind
  is_container : Bool
  body : Option (List Descr) := none
  config : Config := []

/-- The transformation matrix default shared by `mvhd` and `tkhd`. -/
def unityMatrix : EValue :=
  .arr [0x00010000, 0, 0, 0, 0x00010000, 0, 0, 0, 0x40000000]

/-- The box schema registry `BOXSPEC`, an object literal keyed by the
four-character type, modelled as an association list. -/
def BOXSPECL : List (String × BoxSpec) :=
  [("ftyp",
    { container := some "file", mandatory := some true, quantity := some "one"
      box := .hBox, is_container := true
      body := some [
        ⟨"major_brand", .charArray, .str "isom"⟩,
        ⟨"minor_version", .uint32, .num 0⟩,
        ⟨"compatible_brands", .charArray, .str "mp41"⟩] }),
  ("moov",
    { container := some "file", mandatory := some true, quantity := some "one"
      box := .hBox, is_container := true }),
  ("mdat",
    { container := some "file", mandatory := some false, quantity := some "any"
      box := .hBox, is_container := false, body := some [] }),
  ("mvhd",
    { container := some "moov", mandatory := some true, quantity := some "one"
      box := .hFullBox, is_container := false
      body := some [
        ⟨"creation_time", .uint32, .num 0⟩,
        ⟨"modification_time", .uint32, .num 0⟩,
        ⟨"timescale", .uint32, .num 1000⟩,
        ⟨"duration", .uint32, .num 0xffffffff⟩,
        ⟨"rate", .uint32, .num 0x00010000⟩,
        ⟨"volume", .uint16, .num 0x0100⟩,
        ⟨"reserved", .empty, .num 10⟩,
        ⟨"matrix", .uint32Array, unityMatrix⟩,
        ⟨"pre_defined", .empty, .num 24⟩,
        ⟨"next_track_ID", .uint32, .num 0xffffffff⟩] }),
  ("trak",
    { container := some "moov", mandatory := some true, quantity := some "one+"
      box := .hBox, is_container := true }),
  ("tkhd",
    { container := some "trak", mandatory := some true, quantity := some "one"
      box := .hFullBox, is_container := false
      config := [("flags", .num 0x000003)]
      body := some [
        ⟨"creation_time", .uint32, .num 0⟩,
        ⟨"modification_time", .uint32, .num 0⟩,
        ⟨"track_ID", .uint32, .num 1⟩,
        ⟨"reserved", .empty, .num 4⟩,
        ⟨"duration", .uint32, .num 0⟩,
        ⟨"reserved2", .empty, .num 8⟩,
        ⟨"layer", .uint16, .num 0⟩,
        ⟨"alternate_group", .uint16, .num 0⟩,
        ⟨"volume", .uint16, .num 0x0100⟩,
        ⟨"reserved3", .empty, .num 2⟩,
        ⟨"matrix", .uint32Array, unityMatrix⟩,
        ⟨"width", .uint32, .num 0⟩,
        ⟨"height", .uint32, .num 0⟩] }),
  ("tref",
    { container := some "trak", mandatory := some false, quantity := some "one-"
      box := .hBox, is_container := false }),
  ("mdia",
    { container := some "trak", mandatory := some false, quantity := some "one"
      box := .hBox, is_container := true }),
  ("mdhd",
    { container := some "mdia", mandatory := some false, quantity := some "one"
      box := .hFullBox, is_container := false
      body := some [
        ⟨"creation_time", .uint32, .num 0⟩,
        ⟨"modification_time", .uint32, .num 0⟩,
        ⟨"timescale", .uint32, .num 1000⟩,
        ⟨"duration", .uint32, .num 0xffffffff⟩,
        ⟨"language", .uint16, .num 0⟩,
        ⟨"pre_defined", .uint16, .num 0⟩] }),
  ("hdlr",
    { container := some "mdia", mandatory := some true, quantity := some "one"
      box := .hFullBox, is_container := false
      body := some [
        ⟨"predefined", .uint32, .num 0⟩,
        ⟨"handler_type", .charArray, .str "vide"⟩,
        ⟨"reserved", .empty, .num 12⟩,
        ⟨"name", .charArray, .str "VideoHandler\x00"⟩] }),
  ("minf",
    { container := some "mdia", mandatory := some true, quantity := some "one"
      box := .hBox, is_container := true }),
  ("vmhd",
    { container := some "minf", mandatory := some true, quantity := some "one"
      box := .hFullBox, is_container := false
      config := [("flags", .num 0x000001)]
      body := some [
        ⟨"graphicsmode", .uint16, .num 0⟩,
        ⟨"opcolor", .uint16Array, .arr [0, 0, 0]⟩] }),
  ("smhd",
    { container := some "minf", mandatory := some true, quantity := some "one"
      box := .hFullBox, is_container := false
      body := some [
        ⟨"balance", .uint16, .num 0x0000⟩,
        ⟨"reserved", .uint16, .num 0⟩] }),
  ("dinf",
    { container := some "minf", mandatory := some true, quantity := some "one"
      box := .hBox, is_container := true }),
  ("dref",
    { container := some "dinf", mandatory := some true, quantity := some "one"
      box := .hFullBox, is_container := true
      body := some [⟨"entry_count", .uint32, .num 0⟩] }),
  ("url ",
    { container := some "dref", mandatory := some true, quantity := some "one+"
      box := .hFullBox, is_container := false
      config := [("flags", .num 0x000001)]
      body := some [] }),
  ("stbl",
    { container := some "minf", mandatory := some true, quantity := some "one"
      box := .hBox, is_container := true }),
  ("stts",
    { container := some "stbl", mandatory := some true, quantity := some "one"
      box := .hFullBox, is_container := false
      body := some [⟨"entry_count", .uint32, .num 0⟩] }),
  ("stsd",
    { container := some "stbl", mandatory := some true, quantity := some "one"
      box := .hFullBox, is_container := true
      body := some [⟨"entry_count", .uint32, .num 1⟩] }),
  ("avc1",
    { container := some "stsd", mandatory := some false, quantity := some "one"
      box := .hBox, is_container := true
      body := some [
        ⟨"reserved", .empty, .num 6⟩,
        ⟨"data_reference_index", .uint16, .num 1⟩,
        ⟨"pre_defined", .uint16, .num 0⟩,
        ⟨"reserved2", .empty, .num 2⟩,
        ⟨"pre_defined2", .uint32Array, .arr [0, 0, 0]⟩,
        ⟨"width", .uint16, .num 1920⟩,
        ⟨"height", .uint16, .num 1080⟩,
        ⟨"horizresolution", .uint32, .num 0x00480000⟩,
        ⟨"vertresolution", .uint32, .num 0x00480000⟩,
        ⟨"reserved3", .uint32, .num 0⟩,
        ⟨"frame_count", .uint16, .num 1⟩,
        ⟨"compressorname", .uint8Array, .arr (List.replicate 32 0)⟩,
        ⟨"depth", .uint16, .num 0x0018⟩,
        ⟨"pre_defined3", .uint16, .num 0xffff⟩] }),
  ("avcC",
    { container := some "avc1", mandatory := some false, quantity := some "one"
      box := .hBox, is_container := false
      body := some [
        ⟨"configurationVersion", .uint8, .num 1⟩,
        ⟨"AVCProfileIndication", .uint8, .num 0x4d⟩,
        ⟨"profile_compatibility", .uint8, .num 0x00⟩,
        ⟨"AVCLevelIndication", .uint8, .num 0x29⟩,
        ⟨"lengthSizeMinusOne", .uint8, .num 0xff⟩,
        ⟨"sequenceParameterSets", .psa 0xe0, .sets []⟩,
        ⟨"pictureParameterSets", .psa 0x00, .sets []⟩] }),
  ("mp4a",
    { container := some "stsd", mandatory := some false, quantity := some "one"
      box := .hBox, is_container := true
      body := some [
        ⟨"reserved", .empty, .num 6⟩,
        ⟨"data_reference_index", .uint16, .num 1⟩,
        ⟨"reserved2", .uint32Array, .arr [0, 0]⟩,
        ⟨"channelcount", .uint16, .num 2⟩,
        ⟨"samplesize", .uint16, .num 16⟩,
        ⟨"pre_defined", .uint16, .num 0⟩,
        ⟨"reserved3", .uint16, .num 0⟩,
        ⟨"samplerate", .uint32, .num 0⟩] }),
  ("esds",
    { container := some "mp4a", mandatory := some false, quantity := some "one"
      box := .hFullBox, is_container := false
      body := some [
        ⟨"ES_DescrTag", .uint8, .num 3⟩,
        ⟨"ES_DescrLength", .uint8, .num 25⟩,
        ⟨"ES_ID", .uint16, .num 1⟩,
        ⟨"flagsAndStreamPriority", .uint8, .num 0⟩,
        ⟨"DecoderConfigDescrTag", .uint8, .num 4⟩,
        ⟨"DecoderConfigDescrLength", .uint8, .num 15⟩,
        ⟨"objectProfileIndication", .uint8, .num 0x40⟩,
        ⟨"streamTypeUpstreamReserved", .uint8, .num 0x15⟩,
        ⟨"bufferSizeDB", .uint8Array, .arr [0, 0, 0]⟩,
        ⟨"maxBitRate", .uint32, .num 0⟩,
        ⟨"avgBitRate", .uint32, .num 0⟩,
        ⟨"DecSpecificInfoShortTag", .uint8, .num 5⟩,
        ⟨"DecSpecificInfoShortLength", .uint8, .num 0⟩,
        ⟨"audioConfigBytes", .uint8Array, .arr []⟩,
        ⟨"SLConfigDescrTag", .uint8, .num 6⟩,
        ⟨"SLConfigDescrLength", .uint8, .num 1⟩,
        ⟨"SLConfigDescrPredefined", .uint8, .num 0x02⟩] }),
  ("stsz",
    { container := some "stbl", mandatory := some true, quantity := some "one"
      box := .hFullBox, is_container := false
      body := some [
        ⟨"sample_size", .uint32, .num 0⟩,
        ⟨"sample_count", .uint32, .num 0⟩] }),
  ("stsc",
    { container := some "stbl", mandatory := some true, quantity := some "one"
      box := .hFullBox, is_container := false
      body := some [⟨"entry_count", .uint32, .num 0⟩] }),
  ("stco",
    { container := some "stbl", mandatory := some true, quantity := some "one"
      box := .hFullBox, is_container := false
      body := some [⟨"entry_count", .uint32, .num 0⟩] }),
  ("stss",
    { container := some "stbl", mandatory := some false, quantity := some "one-"
      box := .hFullBox, is_container := false
      body := some [⟨"entry_count", .uint32, .num 0⟩] }),
  ("edts",
    { container := some "trak", mandatory := some false, quantity := some "one-"
      box := .hBox, is_container := true }),
  ("elst",
    { container := some "edts", mandatory := some false, quantity := some "one-"
      box := .hFullBox, is_container := false
      body := some [
        ⟨"entry_count", .uint32, .num 1⟩,
        ⟨"segment_duration", .uint32, .num 0⟩,
        ⟨"media_time", .uint32, .num 0xffffffff⟩,
        ⟨"media_rate_integer", .uint16, .num 1⟩,
        ⟨"media_rate_fraction", .uint16, .num 0⟩] }),
  ("mvex",
    { container := some "moov", mandatory := some false, quantity := some "one-"
      box := .hBox, is_container := true }),
  ("mehd",
    { container := some "mvex", mandatory := some false, quantity := some "one-"
      box := .hFullBox, is_container := false
      body := some [⟨"fragment_duration", .uint32, .num 0⟩] }),
  ("trex",
    { container := some "mvex", mandatory := some true, quantity := some "one+"
      box := .hFullBox, is_container := false
      body := some [
        ⟨"track_ID", .uint32, .num 1⟩,
        ⟨"default_sample_description_index", .uint32, .num 1⟩,
        ⟨"default_sample_duration", .uint32, .num 0⟩,
        ⟨"default_sample_size", .uint32, .num 0⟩,
        ⟨"default_sample_flags", .uint32, .num 0⟩] }),
  ("moof",
    { container := some "file", mandatory := some false, quantity := some "zero+"
      box := .hBox, is_container := false }),
  ("mfhd",
    { container := some "moof", mandatory := some true, quantity := some "one"
      box := .hFullBox, is_container := false
      body := some [⟨"sequence_number", .uint32, .num 0⟩] }),
  ("traf",
    { container := some "moof", mandatory := some false, quantity := some "zero+"
      box := .hBox, is_container := true }),
  ("tfhd",
    { container := some "traf", mandatory := some true, quantity := some "one"
      box := .hFullBox, is_container := false
      config := [("flags", .num 0x000020)]
      body := some [
        ⟨"track_ID", .uint32, .num 1⟩,
        ⟨"default_sample_flags", .uint32, .num 0⟩] }),
  ("tfdt",
    { container := some "traf", mandatory := some false, quantity := some "one-"
      box := .hFullBox, is_container := false
      config := [("version", .num 1)]
      body := some [⟨"baseMediaDecodeTime", .uint64, .num 0⟩] }),
  ("trun",
    { container := some "traf", mandatory := some false, quantity := some "zero+"
      box := .hFullBox, is_container := false
      config := [("flags", .num 0x000305)]
      body := some [
        ⟨"sample_count", .uint32, .num 1⟩,
        ⟨"data_offset", .uint32, .num 0⟩,
        ⟨"first_sample_flags", .uint32, .num 0⟩,
        ⟨"sample_duration", .uint32, .num 0⟩,
        ⟨"sample_size", .uint32, .num 0⟩] }),
  ("....", { box := .hBox, is_container := false, body := some [] }),
  ("file",
    { box := .hNone, is_container := true, mandatory := some true, quantity := some "one" })]

/-- Registry lookup `BOXSPEC[type]`. -/
def BOXSPEC (t : String) : Option BoxSpec :=
  (BOXSPECL.find? fun e => e.1 == t).map (·.2)

/-- The `Header.Box(type)` field descriptors. -/
def boxHeaderDescrs (t : String) : List Descr :=
  [⟨"size", .uint32, .num 0⟩, ⟨"type", .charArray, .str t⟩]

/-- Header synthesis (`Header.None` / `Header.Box` / `Header.FullBox`);
`Header.FullBox` concatenates the `Box` header with `version` and `flags`. -/
def headerDescrs : HKind → String → List Descr
  | .hNone, _ => []
  | .hBox, t => boxHeaderDescrs t
  | .hFullBox, t =>
    boxHeaderDescrs t ++ [⟨"version", .uint8, .num 0⟩, ⟨"flags", .uint24, .num 0⟩]

/-- Lookup in `this.config = Object.assign({}, spec.config, config)`: the
caller's entry wins even when it is falsy. -/
def mergedCfgFind (specCfg cfg : Config) (k : String) : Option EValue :=
  match cfgFind cfg k with
  | some v => some v
  | none => cfgFind specCfg k

/-- JS truthiness of a config value, as tested by `if (this.config[key])`:
`0`, the empty string and `undefined` are falsy; every array is truthy. -/
def truthy : EValue → Bool
  | .undef => false
  | .num n => n != 0
  | .str s => s != ""
  | .arr _ => true
  | .bytes _ => true
  | .sets _ => true
  | .psa _ _ => true

/-- The value the constructor selects for a field:
`let value = defaultValue; if (this.config[key]) value = this.config[key]`. -/
def chooseValue (specCfg cfg : Config) (d : Descr) : EValue :=
  match mergedCfgFind specCfg cfg d.name with
  | some v => if truthy v then v else d.dflt
  | none => d.dflt

def hasKeyL (st : List Entry) (k : String) : Bool := st.any fun e => e.1 == k

/-- The constructor loop over the concatenated header and body descriptors:
reject duplicate names, select the value, instantiate the element at the
running offset, and advance the offset by the element's byte length. -/
def buildStruct (specCfg cfg : Config) :
    List Entry → Nat → List Descr → Option (List Entry × Nat)
  | acc, off, [] => some (acc, off)
  | acc, off, d :: ds =>
    if hasKeyL acc d.name then none
    else
      match newElem d.kind (chooseValue specCfg cfg d) with
      | none => none
      | some e => buildStruct specCfg cfg (acc ++ [(d.name, off, e)]) (off + elemByteLength e) ds

/-- `new Box(type, config)` (also the base of `new Container(type, config)`,
which in addition starts its `boxSize` counter at 0). -/
def mkBox (t : String) (cfg : Config) : Option Box :=
  match BOXSPEC t with
  | none => none
  | some spec =>
    match buildStruct spec.config cfg [] 0 (headerDescrs spec.box t ++ spec.body.getD []) with
    | none => none
    | some (st, total) => some ⟨t, 0, total, .undef, st⟩

def structFind (st : List Entry) (k : String) : Option (Nat × Elem) :=
  (st.find? fun e => e.1 == k).map (·.2)

/-- `Box.get(key)`: the named element's `value`; a missing key throws. -/
def getValue (b : Box) (k : String) : Option EValue :=
  (structFind b.struct k).map fun p => elemValue p.2

/-- `Box.offset(key)`. -/
def offsetOf (b : Box) (k : String) : Option Nat :=
  (structFind b.struct k).map (·.1)

/-- Update the value of the entry named `k` (there is at most one, since the
struct is a `Map`); `none` models the `invalid key` error. -/
def setFirstS : List Entry → String → EValue → Option (List Entry)
  | [], _, _ => none
  | (k', o, e) :: rest, k, v =>
    if k' == k then some ((k', o, elemSetValue e v) :: rest)
    else (setFirstS rest k v).map fun r => (k', o, e) :: r

/-- `Box.set(key, value)`: assign `element(key).value = value`. -/
def setBox (b : Box) (k : String) (v : EValue) : Option Box :=
  (setFirstS b.struct k v).map fun st => { b with struct := st }

/-- `Box.add(key, element)`: append a new field at offset `byteLength` and
grow `byteLength`; a duplicate key throws. -/
def addBox (b : Box) (k : String) (e : Elem) : Option Box :=
  if hasKeyL b.struct k then none
  else some { b with
    struct := b.struct ++ [(k, b.byteLength, e)]
    byteLength := b.byteLength + elemByteLength e }

/-- `Container.append(box)` for a single box: `add('box_${boxSize++}', box)`. -/
def appendBox (b : Box) (child : Box) : Option Box :=
  (addBox b (boxKey b.boxSize) child.toElem).map fun b1 =>
    { b1 with boxSize := b.boxSize + 1 }

/-- Byte written by `CharArray.copy` for index `i`: `charCodeAt` truncated to
a byte by the typed-array store, and `0` past the end of the string
(`charCodeAt` yields `NaN` there, and `ToUint8(NaN) = 0`). -/
def charByteAt (s : String) (i : Nat) : Nat :=
  match s.data.get? i with
  | some c => c.toNat % 256
  | none => 0

/-- The `CharArray.copy` loop: write `byteLength` bytes starting at `off`,
taking characters from index `i` upward. -/
def writeCharsFrom : List Nat → Nat → String → Nat → Nat → List Nat
  | buf, _, _, _, 0 => buf
  | buf, off, s, i, n + 1 => writeCharsFrom (buf.set (off + i) (charByteAt s i)) off s (i + 1) n

/-- The `UInt8Array.copy` loop: `writeUInt8(buffer, offset + i, value[i])`. -/
def writeU8s : List Nat → Nat → List Int → Option (List Nat)
  | buf, _, [] => some buf
  | buf, off, v :: vs =>
    match writeUInt8 buf off v with
    | none => none
    | some b => writeU8s b (off + 1) vs

/-- The `UInt16BEArray.copy` loop. -/
def writeU16s : List Nat → Nat → List Int → Option (List Nat)
  | buf, _, [] => some buf
  | buf, off, v :: vs =>
    match writeUInt16BE buf off v with
    | none => none
    | some b => writeU16s b (off + 2) vs

/-- The `UInt32BEArray.copy` loop. -/
def writeU32s : List Nat → Nat → List Int → Option (List Nat)
  | buf, _, [] => some buf
  | buf, off, v :: vs =>
    match writeUInt32BE buf off v with
    | none => none
    | some b => writeU32s b (off + 4) vs

/-- The per-set part of `ParameterSetArray.copy`: for each byte-sequence, a
`UInt16BE` of its length followed by a `UInt8Array` of its bytes, advancing
the running offset by each flattened element's byte length (failure
propagation is written with `Option.bind`). -/
def copyPsaSets : List (List Int) → List Nat → Nat → Option (List Nat)
  | [], buf, _ => some buf
  | s :: ss, buf, off =>
    (writeUInt16BE buf off (Int.ofNat s.length)).bind fun b1 =>
      (writeU8s b1 (off + 2) s).bind fun b2 =>
        copyPsaSets ss b2 (off + 2 + s.length)

/-- `UInt64BE.copy`: `high = (value / 2^32) | 0; low = value - high * 2^32`,
then two big-endian 32-bit writes.  The float division is modelled with exact
integer truncation, which agrees with IEEE doubles for `|value| < 2^53`. -/
def copyU64 (buf : List Nat) (off : Nat) (v : Int) : Option (List Nat) :=
  let high := jsToInt32 (v.tdiv 4294967296)
  let low := v - high * 4294967296
  match writeUInt32BE buf off high with
  | none => none
  | some b1 => writeUInt32BE b1 (off + 4) low

/-- `copy` of a primitive element (each `BoxElement` subclass in turn).  A
value whose shape does not fit the element's kind would raise a `TypeError`
in JS and is modelled as failure. -/
def copyPrim : PKind → Nat → EValue → List Nat → Nat → Option (List Nat)
  | .empty, bl, _, buf, off => some (fillZero buf off bl)
  | .charArray, bl, .str s, buf, off => some (writeCharsFrom buf off s 0 bl)
  | .uint8, _, .num n, buf, off => writeUInt8 buf off n
  | .uint16, _, .num n, buf, off => writeUInt16BE buf off n
  | .uint24, _, .num n, buf, off => writeUInt24BE buf off n
  | .uint32, _, .num n, buf, off => writeUInt32BE buf off n
  | .uint64, _, .num n, buf, off => copyU64 buf off n
  | .uint8Array, _, .arr vs, buf, off => writeU8s buf off vs
  | .uint16Array, _, .arr vs, buf, off => writeU16s buf off vs
  | .uint32Array, _, .arr vs, buf, off => writeU32s buf off vs
  | .byteArray, _, .bytes bs, buf, off =>
    if off + bs.length ≤ buf.length then some (storeBytes buf off bs) else none
  | .paramSetArray, _, .psa mask ss, buf, off =>
    match writeUInt8 buf off (Int.ofNat (Nat.lor mask ss.length)) with
    | none => none
    | some b1 => copyPsaSets ss b1 (off + 1)
  | _, _, _, _, _ => none

mutual

/-- `element.copy(buffer, offset)`.  A child box first assigns its own `size`
field to its `byteLength` (failing like `Box.copy` when it has no `size`
field) and then writes each of its entries at `offset + entry.offset`; the
updated element is returned because `Box.copy` mutates the box.  The `fuel`
argument only bounds the recursion (the JS recursion always terminates on
finite box trees); every caller in this development supplies enough. -/
def copyElem : Nat → Elem → List Nat → Nat → Option (Elem × List Nat)
  | 0, _, _, _ => none
  | _ + 1, .prim k bl v, buf, off =>
    match copyPrim k bl v buf off with
    | none => none
    | some b => some (.prim k bl v, b)
  | fuel + 1, .box t bs bl v st, buf, off =>
    match setFirstS st "size" (.num (Int.ofNat bl)) with
    | none => none
    | some st1 =>
      match copyEntries fuel st1 buf off with
      | none => none
      | some (st2, b) => some (.box t bs bl v st2, b)

/-- The `Box.copy` loop over `struct` entries. -/
def copyEntries : Nat → List Entry → List Nat → Nat → Option (List Entry × List Nat)
  | 0, _, _, _ => none
  | _ + 1, [], buf, _ => some ([], buf)
  | fuel + 1, (k, o, e) :: rest, buf, off =>
    match copyElem fuel e buf (off + o) with
    | none => none
    | some (e1, b1) =>
      match copyEntries fuel rest b1 off with
      | none => none
      | some (st, b2) => some ((k, o, e1) :: st, b2)

end

/-- `Box.copy(buffer, offset)`: set `size` to `byteLength`, then write every
entry; returns the mutated box together with the buffer. -/
def boxCopy (fuel : Nat) (b : Box) (buf : List Nat) (off : Nat) :
    Option (Box × List Nat) :=
  match setFirstS b.struct "size" (.num (Int.ofNat b.byteLength)) with
  | none => none
  | some st1 =>
    match copyEntries fuel st1 buf off with
    | none => none
    | some (st2, b2) => some ({ b with struct := st2 }, b2)

/-- `Box.buffer()`: allocate a zero-filled buffer of `byteLength` bytes and
`copy` into it at offset 0. -/
def bufferB (fuel : Nat) (b : Box) : Option (Box × List Nat) :=
  boxCopy fuel b (List.replicate b.byteLength 0) 0

/-- The `UInt8Array.load` loop: read `n` bytes. -/
def readU8s (buf : List Nat) (off : Nat) : Nat → Option (List Int)
  | 0 => some []
  | n + 1 =>
    match readUInt8 buf off with
    | none => none
    | some r => (readU8s buf (off + 1) n).map fun rs => Int.ofNat r :: rs

/-- The `UInt16BEArray.load` loop. -/
def readU16s (buf : List Nat) (off : Nat) : Nat → Option (List Int)
  | 0 => some []
  | n + 1 =>
    match readUInt16BE buf off with
    | none => none
    | some r => (readU16s buf (off + 2) n).map fun rs => Int.ofNat r :: rs

/-- The `UInt32BEArray.load` loop. -/
def readU32s (buf : List Nat) (off : Nat) : Nat → Option (List Int)
  | 0 => some []
  | n + 1 =>
    match readUInt32BE buf off with
    | none => none
    | some r => (readU32s buf (off + 4) n).map fun rs => Int.ofNat r :: rs

/-- `load` of a primitive element.  `Empty.load` and `ParameterSetArray.load`
are no-ops; `ByteArray.load` throws (`not implemented`); `CharArray.load`
decodes `buffer.subarray(offset, offset + byteLength)` (which clamps);
the array kinds read `value.length` entries, so they depend on the currently
stored value.  A stored value whose shape does not fit is modelled as
failure. -/
def loadPrim : PKind → Nat → EValue → List Nat → Nat → Option Elem
  | .empty, bl, v, _, _ => some (.prim .empty bl v)
  | .charArray, bl, .str _, buf, off =>
    some (.prim .charArray bl (.str (decode ((buf.take (off + bl)).drop off))))
  | .uint8, bl, .num _, buf, off =>
    (readUInt8 buf off).map fun r => .prim .uint8 bl (.num (Int.ofNat r))
  | .uint16, bl, .num _, buf, off =>
    (readUInt16BE buf off).map fun r => .prim .uint16 bl (.num (Int.ofNat r))
  | .uint24, bl, .num _, buf, off =>
    (readUInt24BE buf off).map fun r => .prim .uint24 bl (.num (Int.ofNat r))
  | .uint32, bl, .num _, buf, off =>
    (readUInt32BE buf off).map fun r => .prim .uint32 bl (.num (Int.ofNat r))
  | .uint64, bl, .num _, buf, off =>
    match readUInt32BE buf off with
    | none => none
    | some high =>
      (readUInt32BE buf (off + 4)).map fun low =>
        .prim .uint64 bl (.num (Int.ofNat (high * 4294967296 + low)))
  | .uint8Array, bl, .arr vs, buf, off =>
    (readU8s buf off vs.length).map fun rs => .prim .uint8Array bl (.arr rs)
  | .uint16Array, bl, .arr vs, buf, off =>
    (readU16s buf off vs.length).map fun rs => .prim .uint16Array bl (.arr rs)
  | .uint32Array, bl, .arr vs, buf, off =>
    (readU32s buf off vs.length).map fun rs => .prim .uint32Array bl (.arr rs)
  | .paramSetArray, bl, v, _, _ => some (.prim .paramSetArray bl v)
  | _, _, _, _, _ => none

mutual

/-- `element.load(buffer, offset)`; a child box loads each of its entries in
turn (every element subclass defines `load`). -/
def loadElem : Elem → List Nat → Nat → Option Elem
  | .prim k bl v, buf, off => loadPrim k bl v buf off
  | .box t bs bl v st, buf, off =>
    match loadEntries st buf off with
    | none => none
    | some st1 => some (.box t bs bl v st1)

/-- The `Box.load` loop over `struct` entries. -/
def loadEntries : List Entry → List Nat → Nat → Option (List Entry)
  | [], _, _ => some []
  | (k, o, e) :: rest, buf, off =>
    match loadElem e buf (off + o) with
    | none => none
    | some e1 =>
      match loadEntries rest buf off with
      | none => none
      | some st => some ((k, o, e1) :: st)

end

/-- `Box.load(buffer, offset)`. -/
def boxLoad (b : Box) (buf : List Nat) (off : Nat) : Option Box :=
  (loadEntries b.struct buf off).map fun st => { b with struct := st }

/-- A discovered media track (`MediaTrack` from `types/isom`). -/
structure MediaTrack where
  type : String
  codec : String
  deriving DecidableEq, Repr

/-- Result of `Container.parse`: the mutated container together with the
track list, an exception (`err`), or exhaustion of the loop/recursion fuel
(`fuelOut`) — the latter has no JS counterpart and is reached exactly when
the `while` loop fails to terminate within the given budget. -/
inductive ParseResult where
  | ok (self : Box) (tracks : List MediaTrack)
  | err
  | fuelOut
  deriving Repr

/-- JS `audioConfigBytes[0] >>> 3`: `undefined` on an empty array converts to
0 under `ToUint32`, so the shift then yields 0. -/
def jsOti (vs : List Int) : Nat :=
  match vs.head? with
  | none => 0
  | some v => jsToUint32 v / 8

/-- The video track pushed for an `avcC` box: each of the three profile bytes
formatted as exactly two lowercase hex digits. -/
def avcCTrack (b : Box) : Option MediaTrack :=
  match getValue b "AVCProfileIndication", getValue b "profile_compatibility",
      getValue b "AVCLevelIndication" with
  | some (.num p), some (.num c), some (.num l) =>
    some ⟨"video", "avc1." ++ jsHex2 p.toNat ++ jsHex2 c.toNat ++ jsHex2 l.toNat⟩
  | _, _, _ => none

/-- The audio track pushed for an `esds` box. -/
def esdsTrack (b : Box) : Option MediaTrack :=
  match getValue b "audioConfigBytes" with
  | some (.arr vs) => some ⟨"audio", "mp4a.40." ++ decStr (jsOti vs)⟩
  | _ => none

/-- `Container.parse(data)`.  Each loop iteration reads the four type bytes at
offset 4, looks the type up in the registry, constructs and loads a
`Container` (recursing into `data.slice(box.byteLength, box.get('size'))`), a
`Box` (pushing a media track for `avcC`/`esds`), or the `'....'` fallback
(whose `type` attribute is overwritten with the four bytes read), appends the
new box to `self` under `box_${boxSize++}`, and advances the buffer by
`data.slice(box.get('size'))`.  `fuel` bounds the number of loop iterations
and recursive calls; unreachable dynamic-type mismatches are mapped to
`err`. -/
def parseFuel : Nat → Box → List Nat → ParseResult
  | 0, _, _ => .fuelOut
  | fuel + 1, self, data =>
    if data.length = 0 then .ok self []
    else
      let boxType := decode ((data.take 8).drop 4)
      match BOXSPEC boxType with
      | some spec =>
        if spec.is_container then
          match mkBox boxType [] with
          | none => .err
          | some c =>
            match boxLoad c data 0 with
            | none => .err
            | some c1 =>
              match getValue c1 "size" with
              | some (.num sz) =>
                match parseFuel fuel c1 ((data.take sz.toNat).drop c1.byteLength) with
                | .ok c2 subTracks =>
                  match appendBox self c2 with
                  | none => .err
                  | some self1 =>
                    match getValue c2 "size" with
                    | some (.num sz2) =>
                      match parseFuel fuel self1 (data.drop sz2.toNat) with
                      | .ok selfF rest => .ok selfF (subTracks ++ rest)
                      | r => r
                    | _ => .err
                | r => r
              | _ => .err
        else
          match mkBox boxType [] with
          | none => .err
          | some b =>
            match boxLoad b data 0 with
            | none => .err
            | some b1 =>
              match
                (if boxType = "avcC" then (avcCTrack b1).map (fun t => [t])
                 else if boxType = "esds" then (esdsTrack b1).map (fun t => [t])
                 else some []) with
              | none => .err
              | some newTracks =>
                match appendBox self b1 with
                | none => .err
                | some self1 =>
                  match getValue b1 "size" with
                  | some (.num sz) =>
                    match parseFuel fuel self1 (data.drop sz.toNat) with
                    | .ok selfF rest => .ok selfF (newTracks ++ rest)
                    | r => r
                  | _ => .err
      | none =>
        match mkBox "...." [] with
        | none => .err
        | some b =>
          match boxLoad b data 0 with
          | none => .err
          | some b1 =>
            match getValue b1 "type" with
            | some (.str s) =>
              match appendBox self { b1 with type := s } with
              | none => .err
              | some self1 =>
                match getValue b1 "size" with
                | some (.num sz) =>
                  match parseFuel fuel self1 (data.drop sz.toNat) with
                  | .ok selfF rest => .ok selfF rest
                  | r => r
                | _ => .err
            | _ => .err

/-- Projection of a parse result onto the returned track list. -/
def parseTracks : ParseResult → Option (List MediaTrack)
  | .ok _ tracks => some tracks
  | _ => none

/-! Fixtures and decidable predicates used by the claim statements. -/

/-- The ASCII bytes of a string (each character's code point). -/
def asciiBytes (s : String) : List Nat := s.data.map Char.toNat

/-- An empty `Container('file')`, the root on which `parse` is invoked. -/
def fileBox : Box := ⟨"file", 0, 0, .undef, []⟩

/-- A serialized `avcC` box with the default profile bytes and empty
parameter sets: size 15, type `avcC`, then
`01 4d 00 29 ff e0 00`. -/
def avcC15 : List Nat :=
  [0, 0, 0, 15, 0x61, 0x76, 0x63, 0x43, 1, 0x4d, 0, 0x29, 0xff, 0xe0, 0x00]

/-- A serialized `esds` box whose `DecSpecificInfoShort` carries the single
AudioSpecificConfig byte `0x11` (objectTypeIndication 2): size 38, type
`esds`, version/flags 0, then the descriptor bytes. -/
def esds38 : List Nat :=
  [0, 0, 0, 38, 0x65, 0x73, 0x64, 0x73, 0, 0, 0, 0,
   3, 26, 0, 1, 0, 4, 16, 0x40, 0x15, 0, 0, 0, 0, 0, 0, 0, 0, 0, 0, 0,
   5, 1, 0x11, 6, 1, 2]

/-- A `moov` byte sequence containing exactly one `avcC` box
(profile 0x4d, compatibility 0x00, level 0x29) and one `esds` box whose
`audioConfigBytes[0] = 0x11`. -/
def moov61 : List Nat := [0, 0, 0, 61, 0x6d, 0x6f, 0x6f, 0x76] ++ avcC15 ++ esds38

/-- An 8-byte box whose leading big-endian size field is zero (type `mdat`). -/
def zeroSizeMdat : List Nat := [0, 0, 0, 0, 0x6d, 0x64, 0x61, 0x74]

/-- The 20-byte `ftyp` fixture of the spec. -/
def ftypBytes : List Nat :=
  [0x00, 0x00, 0x00, 0x14, 0x66, 0x74, 0x79, 0x70, 0x69, 0x73, 0x6f, 0x6d,
   0x00, 0x00, 0x00, 0x00, 0x6d, 0x70, 0x34, 0x31]

/-- The 20-byte SPS of the `avcC` fixture. -/
def spsFix : List Int :=
  [0x67, 0x4d, 0x00, 0x29, 0xe2, 0x90, 0x0f, 0x00, 0x44, 0xfc, 0xb8, 0x0b,
   0x70, 0x10, 0x10, 0x1a, 0x41, 0xe2, 0x44, 0x54]

/-- The 4-byte PPS of the `avcC` fixture. -/
def ppsFix : List Int := [0x68, 0xee, 0x3c, 0x80]

/-- An element is of a readable kind: it has a `load` that actually refreshes
the value from the buffer, or at least does not throw — every kind except the
encoder-only `ByteArray`; a child box is not a readable element kind. -/
def elemReadableB : Elem → Bool
  | .prim k _ _ => k != PKind.byteArray
  | .box _ _ _ _ _ => false

/-- Byte-length sum of a struct's elements. -/
def sumBL (st : List Entry) : Nat := (st.map fun e => elemByteLength e.2.2).sum

/-- Offsets are the running sums of the preceding byte lengths, starting from
`acc`. -/
def offsetsRunningB : Nat → List Entry → Bool
  | _, [] => true
  | acc, (_, o, e) :: rest => o == acc && offsetsRunningB (acc + elemByteLength e) rest

/-- The struct invariant maintained by construction and `add`: offsets are the
running byte-length sums and `byteLength` is the total. -/
def structOkB (b : Box) : Bool :=
  offsetsRunningB 0 b.struct && b.byteLength == sumBL b.struct

/-- Boxes reachable by construction followed by any sequence of `add`
operations (`Container.append` is `add` with a synthetic key). -/
inductive Built : Box → Prop where
  | new (t : String) (cfg : Config) (b : Box) (h : mkBox t cfg = some b) : Built b
  | add (b : Box) (k : String) (e : Elem) (b2 : Box) (hb : Built b)
      (h : addBox b k e = some b2) : Built b2

/-- Value-shape conditions on one element of the serialized box under which
`copy` succeeds and its wire image loads back to the same value: the stored
byte length agrees with the value (no stale lengths), scalars fit their
declared widths, strings are made of byte-sized characters, `UInt64BE` values
lie in the exactly-representable range `[0, 2^53)`, and parameter-set bytes
fit.  `ByteArray` (whose `load` throws) and child boxes are excluded. -/
def elemRoundOkB : Elem → Bool
  | .prim .empty _ .undef => true
  | .prim .charArray bl (.str s) =>
    bl == s.length && s.data.all fun c => c.toNat < 256
  | .prim .uint8 bl (.num n) => bl == 1 && decide (0 ≤ n) && decide (n < 256)
  | .prim .uint16 bl (.num n) => bl == 2 && decide (0 ≤ n) && decide (n < 65536)
  | .prim .uint24 bl (.num n) => bl == 3 && decide (0 ≤ n) && decide (n < 16777216)
  | .prim .uint32 bl (.num n) => bl == 4 && decide (0 ≤ n) && decide (n < 4294967296)
  | .prim .uint64 bl (.num n) =>
    bl == 8 && decide (0 ≤ n) && decide (n < 9007199254740992)
  | .prim .uint8Array bl (.arr vs) =>
    bl == vs.length && vs.all fun b => decide (0 ≤ b) && decide (b < 256)
  | .prim .uint16Array bl (.arr vs) =>
    bl == 2 * vs.length && vs.all fun b => decide (0 ≤ b) && decide (b < 65536)
  | .prim .uint32Array bl (.arr vs) =>
    bl == 4 * vs.length && vs.all fun b => decide (0 ≤ b) && decide (b < 4294967296)
  | .prim .paramSetArray bl (.psa mask ss) =>
    bl == psaByteLength ss && decide (Nat.lor mask ss.length < 256) &&
      ss.all fun s => decide (s.length < 65536) &&
        s.all fun b => decide (0 ≤ b) && decide (b < 256)
  | _ => false

/-- Pairing of a serialized element with the fresh element that will load its
bytes: same kind and byte length; for the no-op loaders the values must
already agree (they are never read from the wire). -/
def elemPairOkB : Elem → Elem → Bool
  | .prim k bl v, .prim k' bl' v' =>
    k == k' && bl == bl' &&
    (match k with
     | .empty => v == v'
     | .paramSetArray => v == v'
     | _ => true)
  | _, _ => false

/-- Entrywise pairing of two structs: same names and offsets, paired
elements. -/
def structPairOkB : List Entry → List Entry → Bool
  | [], [] => true
  | (k, o, e) :: r, (k', o', e') :: r' =>
    k == k' && o == o' && elemPairOkB e e' && structPairOkB r r'
  | _, _ => false

/-- Big-endian byte lists of the scalar widths. -/
def be16 (n : Nat) : List Nat := [n / 256 % 256, n % 256]

/-- Big-endian 24-bit byte list. -/
def be24 (n : Nat) : List Nat := [n / 65536 % 256, n / 256 % 256, n % 256]

/-- Big-endian 32-bit byte list. -/
def be32 (n : Nat) : List Nat :=
  [n / 16777216 % 256, n / 65536 % 256, n / 256 % 256, n % 256]

/-- Replace the bytes of `buf` at `[off, off + xs.length)` by `xs`. -/
def splice (buf : List Nat) (off : Nat) (xs : List Nat) : List Nat :=
  buf.take off ++ xs ++ buf.drop (off + xs.length)

/-- The wire form of a `ParameterSetArray`: one byte `mask | count`, then for
each set a `UInt16BE` length followed by the set's bytes. -/
def psaWire (mask : Nat) (ss : List (List Int)) : List Nat :=
  Nat.lor mask ss.length :: (ss.map fun s => be16 s.length ++ s.map Int.toNat).flatten

/-- The byte string a primitive element writes (under the `elemRoundOkB`
conditions); for `UInt64BE` the two halves are the truncated quotient and
remainder by `2^32`, which agree with the JS float split on `[0, 2^53)`. -/
def wirePrim : PKind → Nat → EValue → List Nat
  | .empty, bl, _ => List.replicate bl 0
  | .charArray, bl, .str s => (List.range bl).map (charByteAt s)
  | .uint8, _, .num n => [n.toNat]
  | .uint16, _, .num n => be16 n.toNat
  | .uint24, _, .num n => be24 n.toNat
  | .uint32, _, .num n => be32 n.toNat
  | .uint64, _, .num n =>
    be32 (n.tdiv 4294967296).toNat ++ be32 (n.tmod 4294967296).toNat
  | .uint8Array, _, .arr vs => vs.map Int.toNat
  | .uint16Array, _, .arr vs => (vs.map fun x => be16 x.toNat).flatten
  | .uint32Array, _, .arr vs => (vs.map fun x => be32 x.toNat).flatten
  | .byteArray, _, .bytes bs => bs.map (· % 256)
  | .paramSetArray, _, .psa mask ss => psaWire mask ss
  | _, _, _ => []

/-- The wire form of an element (child boxes are not covered). -/
def elemWire : Elem → List Nat
  | .prim k bl v => wirePrim k bl v
  | .box _ _ _ _ _ => []

/-- The C6 statement about the `UInt64BE` wire form: the high half is the
floor of `v / 2^32` (characterized order-theoretically), `copy` produces the
two big-endian halves, and `load` of those eight bytes returns exactly `v`. -/
def C6WireProp (v : Int) : Prop :=
  v.tdiv 4294967296 * 4294967296 ≤ v ∧
  v < (v.tdiv 4294967296 + 1) * 4294967296 ∧
  copyU64 (List.replicate 8 0) 0 v =
    some (be32 (v.tdiv 4294967296).toNat ++
      be32 (v - v.tdiv 4294967296 * 4294967296).toNat) ∧
  loadPrim .uint64 8 (.num 0)
      (be32 (v.tdiv 4294967296).toNat ++
        be32 (v - v.tdiv 4294967296 * 4294967296).toNat) 0 =
    some (.prim .uint64 8 (.num v))

/-- The C6 statement about `tfdt`: byte length 20, version byte `01` at
offset 8, `baseMediaDecodeTime` on the wire at bytes 12–19, and a write/read
round trip of `0x1_0000_0000` returning exactly 4294967296. -/
def C6TfdtProp : Prop :=
  (mkBox "tfdt" []).map Box.byteLength = some 20 ∧
  ((mkBox "tfdt" []).bind (bufferB 32)).map (fun p => p.2.getD 8 99) = some 1 ∧
  (do
    let b ← mkBox "tfdt" []
    let b1 ← setBox b "baseMediaDecodeTime" (.num 4294967296)
    let p ← bufferB 32 b1
    pure ((p.2.drop 12).take 8)) = some [0, 0, 0, 1, 0, 0, 0, 0] ∧
  (do
    let b ← mkBox "tfdt" []
    let b1 ← setBox b "baseMediaDecodeTime" (.num 4294967296)
    let p ← bufferB 32 b1
    let fresh ← mkBox "tfdt" []
    let b2 ← boxLoad fresh p.2 0
    getValue b2 "baseMediaDecodeTime") = some (EValue.num 4294967296)

/-- The C8 statement about the `avcC` fixture: the body built from the
20-byte SPS and the 4-byte PPS starts (at offset 13) with `E1 00 14`, the SPS
bytes, then `01`, `00 04` and the PPS bytes. -/
def C8AvcCProp : Prop :=
  (do
    let b ← mkBox "avcC"
      [("sequenceParameterSets", EValue.sets [spsFix]),
       ("pictureParameterSets", EValue.sets [ppsFix])]
    let p ← bufferB 32 b
    pure (p.2.drop 13)) =
  some ([0xe1, 0x00, 0x14] ++ spsFix.map Int.toNat ++
    [0x01, 0x00, 0x04] ++ ppsFix.map Int.toNat)

/-- The C4 round-trip conclusion: serializing `B` (which sets its `size`) and
loading the bytes into the fresh `B'` reproduces `B` exactly. -/
def C4Concl (B B' : Box) : Prop :=
  ∃ Bw buf B2,
    bufferB (B.struct.length + 1) B = some (Bw, buf) ∧
    boxLoad B' buf 0 = some B2 ∧ B2 = Bw

/-- A default box used only to name concrete witnesses. -/
def defaultBox : Box := ⟨"", 0, 0, .undef, []⟩

/-- Concrete witness data for the C4 round trip: `mfhd` with an overridden
`sequence_number`. -/
def mfhdCfg : Config := [("sequence_number", EValue.num 7)]

/-- The `mfhd` box built from `mfhdCfg`. -/
def mfhdB : Box := (mkBox "mfhd" mfhdCfg).getD defaultBox

/-- A fresh default `mfhd` box. -/
def mfhdB0 : Box := (mkBox "mfhd" []).getD defaultBox

/-- The well-formedness used by the amended C5: the struct begins with a
`UInt32BE` `size` field at offset 0 and a 4-character `CharArray` `type`
field at offset 4 whose value is the box's `type` attribute (with byte-sized
characters), every further field sits at offset at least 8, and the box's
byte length is at least the 8 header bytes (and, as for every box, equals
the byte-length sum tracked by construction). -/
def sizeTypeHeaderB (b : Box) : Bool :=
  match b.struct with
  | ("size", o1, .prim .uint32 4 (.num _)) ::
      ("type", o2, .prim .charArray bl (.str s)) :: rest =>
    o1 == 0 && o2 == 4 && bl == 4 && s == b.type && s.length == 4 &&
      (s.data.all fun c => c.toNat < 256) &&
      (rest.all fun q => 8 ≤ q.2.1) && 8 ≤ b.byteLength
  | _ => false

/-- The `ftyp` box with no overrides, a concrete witness. -/
def ftypB : Box := (mkBox "ftyp" []).getD defaultBox

/-- The `tkhd` box with no overrides, a concrete witness for C3. -/
def tkhdB : Box := (mkBox "tkhd" [("track_ID", EValue.num 2)]).getD defaultBox

/-- Numeric value of a most-significant-first decimal digit list, a left
inverse of `decDigitsF` used to prove `decStr` injective. -/
def decVal (l : List Char) : Nat := l.foldl (fun a c => 10 * a + (c.toNat - 48)) 0

/-- The `tkhd` registry entry, named so the C3 witness can hand it to the
selection theorem. -/
def tkhdSpec : BoxSpec := (BOXSPEC "tkhd").getD ⟨none, none, none, .hNone, false, none, []⟩

/-- The concrete box `Container.parse` builds and loads for the zero-size
`mdat` header fixture. -/
def mdatLoaded : Box :=
  ((mkBox "mdat" []).bind fun b => boxLoad b zeroSizeMdat 0).getD defaultBox

/-- The decidable hypotheses of the corrected C4 round trip, on the
serialized box `B` and the freshly constructed box `Bf`: `B` has a `size`
field (so `copy` can assign it), its struct invariant holds, its byte length
fits the `size` field, every element of the size-assigned struct and of the
fresh struct satisfies the round-trip value conditions, the two structs pair
up (same names, offsets, kinds and byte lengths, with equal values for the
no-op loaders), and the two boxes agree on their scalar attributes. -/
def c4ReadyB (B Bf : Box) : Bool :=
  match setFirstS B.struct "size" (.num (Int.ofNat B.byteLength)) with
  | none => false
  | some st1 =>
    structOkB B && decide (B.byteLength < 4294967296) &&
    (st1.all fun q => elemRoundOkB q.2.2) &&
    (Bf.struct.all fun q => elemRoundOkB q.2.2) &&
    structPairOkB st1 Bf.struct &&
    (Bf.type == B.type) && (Bf.boxSize == B.boxSize) &&
    (Bf.byteLength == B.byteLength) && (Bf.value == B.value)

/-- The decidable hypotheses of the amended C5 header-bytes statement:
the box starts with the standard `size`/`type` header, its struct invariant
holds, its byte length fits the `size` field, and the size-assigned struct
satisfies the per-element write conditions. -/
def c5ReadyB (B : Box) : Bool :=
  sizeTypeHeaderB B && structOkB B && decide (B.byteLength < 4294967296) &&
  (match setFirstS B.struct "size" (.num (Int.ofNat B.byteLength)) with
   | none => false
   | some st1 => st1.all fun q => elemRoundOkB q.2.2)

/-- `ftypB` after `set('major_brand', 'abcdefgh')`, the C10 witness: the
stored value is now 8 characters long while the element's byte length stays
4. -/
def ftypSet : Box := (setBox ftypB "major_brand" (.str "abcdefgh")).getD defaultBox

/-- The name, offset, byte length and kind of a struct entry — everything
`set` leaves untouched. -/
def entrySkel (q : Entry) : String × Nat × Nat × Option PKind :=
  (q.1, q.2.1, elemByteLength q.2.2, elemKind q.2.2)

/-!  Theorems.  First a small algebra of byte-buffer splices, then frame and
exact-write lemmas for each writer, and the construction/round-trip lemmas the
claims build on.  -/

theorem getD_set_self (l : List Nat) (i x d : Nat) (h : i < l.length) :
    (l.set i x).getD i d = x := by
  rw [List.getD_eq_getElem?_getD, List.getElem?_set_self']
  simp [List.getElem?_eq_getElem h]

theorem getD_set_ne (l : List Nat) (i j x d : Nat) (h : i ≠ j) :
    (l.set i x).getD j d = l.getD j d := by
  rw [List.getD_eq_getElem?_getD, List.getElem?_set_ne h, ← List.getD_eq_getElem?_getD]

theorem splice_length (buf : List Nat) (off : Nat) (xs : List Nat)
    (h : off + xs.length ≤ buf.length) : (splice buf off xs).length = buf.length := by
  simp [splice]
  omega

theorem getD_splice_lt (buf : List Nat) (off : Nat) (xs : List Nat) (i d : Nat)
    (h : i < off) (hb : off ≤ buf.length) :
    (splice buf off xs).getD i d = buf.getD i d := by
  have htl : (buf.take off).length = off := by simp; omega
  rw [splice, List.append_assoc, List.getD_append _ _ _ _ (by omega)]
  have hi : i < (buf.take off).length := by omega
  rw [List.getD_eq_getElem _ _ hi, List.getElem_take, ← List.getD_eq_getElem]

theorem getD_splice_mid (buf : List Nat) (off : Nat) (xs : List Nat) (i d : Nat)
    (h : i < xs.length) (hb : off ≤ buf.length) :
    (splice buf off xs).getD (off + i) d = xs.getD i d := by
  have htl : (buf.take off).length = off := by simp; omega
  rw [splice, List.append_assoc, List.getD_append_right _ _ _ _ (by omega), htl]
  rw [Nat.add_sub_cancel_left, List.getD_append _ _ _ _ h]

theorem getD_splice_ge (buf : List Nat) (off : Nat) (xs : List Nat) (i d : Nat)
    (h : off + xs.length ≤ i) (hb : off + xs.length ≤ buf.length) :
    (splice buf off xs).getD i d = buf.getD i d := by
  have htl : (buf.take off).length = off := by simp; omega
  rw [splice, List.append_assoc, List.getD_append_right _ _ _ _ (by omega), htl]
  rw [List.getD_append_right _ _ _ _ (by omega)]
  rcases Nat.lt_or_ge i buf.length with hi | hi
  · have h1 : i - off - xs.length < (buf.drop (off + xs.length)).length := by
      simp; omega
    rw [List.getD_eq_getElem _ _ h1, List.getElem_drop, ← List.getD_eq_getElem]
    congr 1
    omega
  · rw [List.getD_eq_default, List.getD_eq_default _ _ hi]
    simp
    omega

theorem eq_splice_of_getD (buf out : List Nat) (off : Nat) (xs : List Nat)
    (hlen : out.length = buf.length) (hb : off + xs.length ≤ buf.length)
    (hlow : ∀ i, i < off → out.getD i 0 = buf.getD i 0)
    (hmid : ∀ i, i < xs.length → out.getD (off + i) 0 = xs.getD i 0)
    (hhigh : ∀ i, off + xs.length ≤ i → out.getD i 0 = buf.getD i 0) :
    out = splice buf off xs := by
  have hsl : (splice buf off xs).length = buf.length := splice_length _ _ _ hb
  apply List.ext_getElem (by omega)
  intro i h1 h2
  rw [← List.getD_eq_getElem out 0 h1, ← List.getD_eq_getElem _ 0 h2]
  rcases Nat.lt_or_ge i off with hc | hc
  · rw [hlow i hc, getD_splice_lt _ _ _ _ _ hc (by omega)]
  · rcases Nat.lt_or_ge i (off + xs.length) with hc2 | hc2
    · obtain ⟨j, rfl⟩ : ∃ j, i = off + j := ⟨i - off, by omega⟩
      rw [hmid j (by omega), getD_splice_mid _ _ _ _ _ (by omega) (by omega)]
    · rw [hhigh i hc2, getD_splice_ge _ _ _ _ _ hc2 hb]

theorem set_eq_splice (buf : List Nat) (off x : Nat) (hb : off < buf.length) :
    buf.set off x = splice buf off [x] := by
  apply eq_splice_of_getD _ _ _ _ (by simp) (by simp <;> omega)
  · intro i hi
    exact getD_set_ne buf off i x 0 (by omega)
  · intro i hi
    have hz : i = 0 := by simp at hi; omega
    subst hz
    rw [Nat.add_zero]
    rw [getD_set_self buf off x 0 hb]
    rfl
  · intro i hi
    simp at hi
    exact getD_set_ne buf off i x 0 (by omega)

theorem splice_append (buf : List Nat) (off : Nat) (xs ys : List Nat)
    (hb : off + xs.length + ys.length ≤ buf.length) :
    splice (splice buf off xs) (off + xs.length) ys = splice buf off (xs ++ ys) := by
  have h1 : off + xs.length ≤ buf.length := by omega
  have hsl : (splice buf off xs).length = buf.length := splice_length _ _ _ h1
  apply eq_splice_of_getD _ _ _ _ (by rw [splice_length, hsl]; rw [hsl]; omega) (by simp <;> omega)
  · intro i hi
    rw [getD_splice_lt (splice buf off xs) (off + xs.length) ys i 0 (by omega) (by omega),
      getD_splice_lt buf off xs i 0 hi (by omega)]
  · intro i hi
    simp at hi
    rcases Nat.lt_or_ge i xs.length with hc | hc
    · rw [getD_splice_lt (splice buf off xs) (off + xs.length) ys (off + i) 0 (by omega) (by omega),
        getD_splice_mid buf off xs i 0 hc (by omega),
        List.getD_append _ _ _ _ hc]
    · obtain ⟨j, rfl⟩ : ∃ j, i = xs.length + j := ⟨i - xs.length, by omega⟩
      rw [show off + (xs.length + j) = (off + xs.length) + j from by omega,
        getD_splice_mid (splice buf off xs) (off + xs.length) ys j 0 (by omega) (by omega),
        List.getD_append_right _ _ _ _ (by omega)]
      congr 1
      omega
  · intro i hi
    simp at hi
    rw [getD_splice_ge (splice buf off xs) (off + xs.length) ys i 0 (by omega) (by omega),
      getD_splice_ge buf off xs i 0 (by omega) (by omega)]

theorem set2_splice (buf : List Nat) (off a b : Nat) (hb : off + 2 ≤ buf.length) :
    (buf.set off a).set (off + 1) b = splice buf off [a, b] := by
  rw [set_eq_splice buf off a (by omega)]
  rw [set_eq_splice (splice buf off [a]) (off + 1) b
    (by rw [splice_length _ _ _ (by simp <;> omega)]; omega)]
  rw [show off + 1 = off + [a].length from by simp]
  rw [splice_append _ _ _ _ (by simp <;> omega)]
  rfl

theorem set3_splice (buf : List Nat) (off a b c : Nat) (hb : off + 3 ≤ buf.length) :
    ((buf.set off a).set (off + 1) b).set (off + 2) c = splice buf off [a, b, c] := by
  rw [set2_splice buf off a b (by omega)]
  rw [set_eq_splice (splice buf off [a, b]) (off + 2) c
    (by rw [splice_length _ _ _ (by simp <;> omega)]; omega)]
  rw [show off + 2 = off + [a, b].length from by simp]
  rw [splice_append _ _ _ _ (by simp <;> omega)]
  rfl

theorem set4_splice (buf : List Nat) (off a b c d : Nat) (hb : off + 4 ≤ buf.length) :
    (((buf.set off a).set (off + 1) b).set (off + 2) c).set (off + 3) d =
      splice buf off [a, b, c, d] := by
  rw [set3_splice buf off a b c (by omega)]
  rw [set_eq_splice (splice buf off [a, b, c]) (off + 3) d
    (by rw [splice_length _ _ _ (by simp <;> omega)]; omega)]
  rw [show off + 3 = off + [a, b, c].length from by simp]
  rw [splice_append _ _ _ _ (by simp <;> omega)]
  rfl

theorem writeUInt8_splice (buf : List Nat) (off : Nat) (v : Int)
    (h0 : 0 ≤ v) (h1 : v < 256) (hb : off + 1 ≤ buf.length) :
    writeUInt8 buf off v = some (splice buf off [v.toNat]) := by
  rw [writeUInt8, if_pos ⟨h0, h1⟩, set_eq_splice _ _ _ (by omega)]

theorem writeUInt16BE_splice (buf : List Nat) (off : Nat) (v : Int)
    (h0 : 0 ≤ v) (h1 : v < 65536) (hb : off + 2 ≤ buf.length) :
    writeUInt16BE buf off v = some (splice buf off (be16 v.toNat)) := by
  rw [writeUInt16BE, if_pos ⟨h0, h1⟩, set2_splice buf off _ _ hb]
  have hv : v.toNat / 256 % 256 = v.toNat / 256 := Nat.mod_eq_of_lt (by omega)
  rw [be16, hv]

theorem writeUInt24BE_splice (buf : List Nat) (off : Nat) (v : Int)
    (h0 : 0 ≤ v) (h1 : v < 16777216) (hb : off + 3 ≤ buf.length) :
    writeUInt24BE buf off v = some (splice buf off (be24 v.toNat)) := by
  rw [writeUInt24BE, if_pos ⟨h0, h1⟩, set3_splice buf off _ _ _ hb]
  have hv : v.toNat / 65536 % 256 = v.toNat / 65536 := Nat.mod_eq_of_lt (by omega)
  rw [be24, hv]

theorem writeUInt32BE_splice (buf : List Nat) (off : Nat) (v : Int)
    (h0 : 0 ≤ v) (h1 : v < 4294967296) (hb : off + 4 ≤ buf.length) :
    writeUInt32BE buf off v = some (splice buf off (be32 v.toNat)) := by
  rw [writeUInt32BE, if_pos ⟨h0, h1⟩, set4_splice buf off _ _ _ _ hb]
  have hv : v.toNat / 16777216 % 256 = v.toNat / 16777216 := Nat.mod_eq_of_lt (by omega)
  rw [be32, hv]

theorem splice_nil (buf : List Nat) (off : Nat) : splice buf off [] = buf := by
  simp [splice]

theorem fillZero_splice (n : Nat) : ∀ (buf : List Nat) (off : Nat),
    off + n ≤ buf.length → fillZero buf off n = splice buf off (List.replicate n 0) := by
  induction n with
  | zero => intro buf off _; rw [fillZero, List.replicate_zero, splice_nil]
  | succ m ih =>
    intro buf off hb
    rw [fillZero, ih (buf.set off 0) (off + 1) (by simp <;> omega)]
    rw [set_eq_splice buf off 0 (by omega)]
    rw [show off + 1 = off + [0].length from by simp]
    rw [splice_append _ _ _ _ (by simp <;> omega)]
    rfl

theorem fillZero_frame (n : Nat) : ∀ (buf : List Nat) (off : Nat),
    (fillZero buf off n).length = buf.length ∧
      ∀ i, i < off → (fillZero buf off n).getD i 0 = buf.getD i 0 := by
  induction n with
  | zero => intro buf off; rw [fillZero]; exact ⟨rfl, fun _ _ => rfl⟩
  | succ m ih =>
    intro buf off
    rw [fillZero]
    obtain ⟨hl, hg⟩ := ih (buf.set off 0) (off + 1)
    refine ⟨by rw [hl]; simp, fun i hi => ?_⟩
    rw [hg i (by omega), getD_set_ne buf off i 0 0 (by omega)]

theorem storeBytes_frame (bs : List Nat) : ∀ (buf : List Nat) (off : Nat),
    (storeBytes buf off bs).length = buf.length ∧
      ∀ i, i < off → (storeBytes buf off bs).getD i 0 = buf.getD i 0 := by
  induction bs with
  | nil => intro buf off; rw [storeBytes]; exact ⟨rfl, fun _ _ => rfl⟩
  | cons b rest ih =>
    intro buf off
    rw [storeBytes]
    obtain ⟨hl, hg⟩ := ih (buf.set off (b % 256)) (off + 1)
    refine ⟨by rw [hl]; simp, fun i hi => ?_⟩
    rw [hg i (by omega), getD_set_ne buf off i _ 0 (by omega)]

theorem writeCharsFrom_splice (s : String) (n : Nat) : ∀ (buf : List Nat) (off i : Nat),
    off + i + n ≤ buf.length →
    writeCharsFrom buf off s i n =
      splice buf (off + i) ((List.range n).map fun j => charByteAt s (i + j)) := by
  induction n with
  | zero => intro buf off i _; rw [writeCharsFrom, List.range_zero, List.map_nil, splice_nil]
  | succ m ih =>
    intro buf off i hb
    rw [writeCharsFrom, ih (buf.set (off + i) (charByteAt s i)) off (i + 1) (by simp <;> omega)]
    rw [set_eq_splice buf (off + i) _ (by omega)]
    rw [show off + (i + 1) = (off + i) + [charByteAt s i].length from by simp; omega]
    rw [splice_append _ _ _ _ (by simp <;> omega)]
    congr 1
    rw [List.range_succ_eq_map, List.map_cons, List.map_map]
    simp only [List.singleton_append, Nat.add_zero]
    congr 1
    apply List.map_congr_left
    intro a _
    simp [Function.comp]
    congr 1
    omega

theorem writeCharsFrom_frame (s : String) (n : Nat) : ∀ (buf : List Nat) (off i : Nat),
    (writeCharsFrom buf off s i n).length = buf.length ∧
      ∀ j, j < off + i → (writeCharsFrom buf off s i n).getD j 0 = buf.getD j 0 := by
  induction n with
  | zero => intro buf off i; rw [writeCharsFrom]; exact ⟨rfl, fun _ _ => rfl⟩
  | succ m ih =>
    intro buf off i
    rw [writeCharsFrom]
    obtain ⟨hl, hg⟩ := ih (buf.set (off + i) (charByteAt s i)) off (i + 1)
    refine ⟨by rw [hl]; simp, fun j hj => ?_⟩
    rw [hg j (by omega), getD_set_ne buf (off + i) j _ 0 (by omega)]

theorem writeU8s_splice (vs : List Int) : ∀ (buf : List Nat) (off : Nat),
    (∀ b ∈ vs, 0 ≤ b ∧ b < 256) → off + vs.length ≤ buf.length →
    writeU8s buf off vs = some (splice buf off (vs.map Int.toNat)) := by
  induction vs with
  | nil => intro buf off _ _; rw [writeU8s, List.map_nil, splice_nil]
  | cons v rest ih =>
    intro buf off hv hb
    obtain ⟨h0, h1⟩ := hv v (by simp)
    simp only [List.length_cons] at hb
    rw [writeU8s, writeUInt8_splice buf off v h0 h1 (by omega)]
    show writeU8s (splice buf off [v.toNat]) (off + 1) rest = _
    rw [ih (splice buf off [v.toNat]) (off + 1)
      (fun b hbm => hv b (by simp [hbm]))
      (by rw [splice_length _ _ _ (by simp <;> omega)]; omega)]
    rw [show off + 1 = off + [v.toNat].length from by simp]
    rw [splice_append _ _ _ _ (by simp <;> omega)]
    rfl

theorem writeU8s_frame (vs : List Int) : ∀ (buf : List Nat) (off : Nat) (out : List Nat),
    writeU8s buf off vs = some out →
    out.length = buf.length ∧ ∀ i, i < off → out.getD i 0 = buf.getD i 0 := by
  induction vs with
  | nil =>
    intro buf off out h
    rw [writeU8s] at h
    cases h
    exact ⟨rfl, fun _ _ => rfl⟩
  | cons v rest ih =>
    intro buf off out h
    rw [writeU8s] at h
    cases hw : writeUInt8 buf off v with
    | none => rw [hw] at h; cases h
    | some b1 =>
      rw [hw] at h
      obtain ⟨hl, hg⟩ := ih b1 (off + 1) out h
      rw [writeUInt8] at hw
      split at hw
      · cases hw
        refine ⟨by rw [hl]; simp, fun i hi => ?_⟩
        rw [hg i (by omega), getD_set_ne buf off i _ 0 (by omega)]
      · cases hw

theorem be16_flatten_length (vs : List Int) :
    ((vs.map fun x => be16 x.toNat).flatten).length = 2 * vs.length := by
  induction vs with
  | nil => rfl
  | cons v rest ih =>
    rw [List.map_cons, List.flatten_cons, List.length_append, ih]
    simp [be16]
    omega

theorem be32_flatten_length (vs : List Int) :
    ((vs.map fun x => be32 x.toNat).flatten).length = 4 * vs.length := by
  induction vs with
  | nil => rfl
  | cons v rest ih =>
    rw [List.map_cons, List.flatten_cons, List.length_append, ih]
    simp [be32]
    omega

theorem writeU16s_splice (vs : List Int) : ∀ (buf : List Nat) (off : Nat),
    (∀ b ∈ vs, 0 ≤ b ∧ b < 65536) → off + 2 * vs.length ≤ buf.length →
    writeU16s buf off vs =
      some (splice buf off ((vs.map fun x => be16 x.toNat).flatten)) := by
  induction vs with
  | nil => intro buf off _ _; rw [writeU16s]; simp [splice_nil]
  | cons v rest ih =>
    intro buf off hv hb
    obtain ⟨h0, h1⟩ := hv v (by simp)
    simp only [List.length_cons] at hb
    rw [writeU16s, writeUInt16BE_splice buf off v h0 h1 (by omega)]
    show writeU16s (splice buf off (be16 v.toNat)) (off + 2) rest = _
    rw [ih (splice buf off (be16 v.toNat)) (off + 2)
      (fun b hbm => hv b (by simp [hbm]))
      (by rw [splice_length _ _ _ (by simp [be16]; omega)]; omega)]
    rw [show off + 2 = off + (be16 v.toNat).length from by simp [be16]]
    rw [splice_append _ _ _ _
      (by rw [be16_flatten_length]; simp [be16]; omega)]
    rfl

theorem writeU16s_frame (vs : List Int) : ∀ (buf : List Nat) (off : Nat) (out : List Nat),
    writeU16s buf off vs = some out →
    out.length = buf.length ∧ ∀ i, i < off → out.getD i 0 = buf.getD i 0 := by
  induction vs with
  | nil =>
    intro buf off out h
    rw [writeU16s] at h
    cases h
    exact ⟨rfl, fun _ _ => rfl⟩
  | cons v rest ih =>
    intro buf off out h
    rw [writeU16s] at h
    cases hw : writeUInt16BE buf off v with
    | none => rw [hw] at h; cases h
    | some b1 =>
      rw [hw] at h
      obtain ⟨hl, hg⟩ := ih b1 (off + 2) out h
      rw [writeUInt16BE] at hw
      split at hw
      · cases hw
        refine ⟨by rw [hl]; simp, fun i hi => ?_⟩
        rw [hg i (by omega), getD_set_ne _ (off + 1) i _ 0 (by omega),
          getD_set_ne buf off i _ 0 (by omega)]
      · cases hw

theorem writeU32s_splice (vs : List Int) : ∀ (buf : List Nat) (off : Nat),
    (∀ b ∈ vs, 0 ≤ b ∧ b < 4294967296) → off + 4 * vs.length ≤ buf.length →
    writeU32s buf off vs =
      some (splice buf off ((vs.map fun x => be32 x.toNat).flatten)) := by
  induction vs with
  | nil => intro buf off _ _; rw [writeU32s]; simp [splice_nil]
  | cons v rest ih =>
    intro buf off hv hb
    obtain ⟨h0, h1⟩ := hv v (by simp)
    simp only [List.length_cons] at hb
    rw [writeU32s, writeUInt32BE_splice buf off v h0 h1 (by omega)]
    show writeU32s (splice buf off (be32 v.toNat)) (off + 4) rest = _
    rw [ih (splice buf off (be32 v.toNat)) (off + 4)
      (fun b hbm => hv b (by simp [hbm]))
      (by rw [splice_length _ _ _ (by simp [be32]; omega)]; omega)]
    rw [show off + 4 = off + (be32 v.toNat).length from by simp [be32]]
    rw [splice_append _ _ _ _ (by rw [be32_flatten_length]; simp [be32]; omega)]
    rfl

theorem writeU32s_frame (vs : List Int) : ∀ (buf : List Nat) (off : Nat) (out : List Nat),
    writeU32s buf off vs = some out →
    out.length = buf.length ∧ ∀ i, i < off → out.getD i 0 = buf.getD i 0 := by
  induction vs with
  | nil =>
    intro buf off out h
    rw [writeU32s] at h
    cases h
    exact ⟨rfl, fun _ _ => rfl⟩
  | cons v rest ih =>
    intro buf off out h
    rw [writeU32s] at h
    cases hw : writeUInt32BE buf off v with
    | none => rw [hw] at h; cases h
    | some b1 =>
      rw [hw] at h
      obtain ⟨hl, hg⟩ := ih b1 (off + 4) out h
      rw [writeUInt32BE] at hw
      split at hw
      · cases hw
        refine ⟨by rw [hl]; simp, fun i hi => ?_⟩
        rw [hg i (by omega), getD_set_ne _ (off + 3) i _ 0 (by omega),
          getD_set_ne _ (off + 2) i _ 0 (by omega),
          getD_set_ne _ (off + 1) i _ 0 (by omega),
          getD_set_ne buf off i _ 0 (by omega)]
      · cases hw

theorem psaSets_flatten_length (ss : List (List Int)) :
    ((ss.map fun s => be16 s.length ++ s.map Int.toNat).flatten).length =
      (ss.map fun s => 2 + s.length).sum := by
  induction ss with
  | nil => rfl
  | cons s rest ih =>
    rw [List.map_cons, List.flatten_cons, List.length_append, ih,
      List.map_cons, List.sum_cons, List.length_append]
    simp [be16]

theorem copyPsaSets_splice (ss : List (List Int)) : ∀ (buf : List Nat) (off : Nat),
    (∀ s ∈ ss, s.length < 65536 ∧ ∀ b ∈ s, 0 ≤ b ∧ b < 256) →
    off + (ss.map fun s => 2 + s.length).sum ≤ buf.length →
    copyPsaSets ss buf off =
      some (splice buf off ((ss.map fun s => be16 s.length ++ s.map Int.toNat).flatten)) := by
  induction ss with
  | nil =>
    intro buf off _ _
    exact congrArg some (splice_nil buf off).symm
  | cons s rest ih =>
    intro buf off hs hb
    obtain ⟨hlen, hbytes⟩ := hs s (by simp)
    rw [List.map_cons, List.sum_cons] at hb
    have w1 : writeUInt16BE buf off (Int.ofNat s.length) =
        some (splice buf off (be16 s.length)) := by
      rw [writeUInt16BE_splice buf off (Int.ofNat s.length) (Int.ofNat_nonneg s.length)
        (Int.ofNat_lt.mpr hlen) (by omega)]
      simp
    have hb1 : (splice buf off (be16 s.length)).length = buf.length :=
      splice_length _ _ _ (by simp [be16]; omega)
    have w2 : writeU8s (splice buf off (be16 s.length)) (off + 2) s =
        some (splice (splice buf off (be16 s.length)) (off + 2) (s.map Int.toNat)) :=
      writeU8s_splice s _ (off + 2) hbytes (by rw [hb1]; omega)
    have e12 : splice (splice buf off (be16 s.length)) (off + 2) (s.map Int.toNat) =
        splice buf off (be16 s.length ++ s.map Int.toNat) := by
      rw [show off + 2 = off + (be16 s.length).length from by simp [be16]]
      exact splice_append _ _ _ _ (by simp [be16]; omega)
    have hb2 : (splice buf off (be16 s.length ++ s.map Int.toNat)).length = buf.length :=
      splice_length _ _ _ (by simp [be16]; omega)
    have w3 : copyPsaSets rest (splice buf off (be16 s.length ++ s.map Int.toNat))
        (off + 2 + s.length) =
        some (splice (splice buf off (be16 s.length ++ s.map Int.toNat))
          (off + 2 + s.length)
          ((rest.map fun q => be16 q.length ++ q.map Int.toNat).flatten)) :=
      ih (splice buf off (be16 s.length ++ s.map Int.toNat)) (off + 2 + s.length)
        (fun q hq => hs q (by simp [hq])) (by rw [hb2]; omega)
    have e3 : splice (splice buf off (be16 s.length ++ s.map Int.toNat))
        (off + 2 + s.length)
        ((rest.map fun q => be16 q.length ++ q.map Int.toNat).flatten) =
        splice buf off
          (((s :: rest).map fun q => be16 q.length ++ q.map Int.toNat).flatten) := by
      rw [show off + 2 + s.length = off + (be16 s.length ++ s.map Int.toNat).length from by
        simp [be16]; try omega]
      rw [splice_append buf off (be16 s.length ++ s.map Int.toNat)
        ((rest.map fun q => be16 q.length ++ q.map Int.toNat).flatten)
        (by rw [psaSets_flatten_length]; simp [be16] at hb ⊢; omega)]
      rw [List.map_cons, List.flatten_cons]
    simp only [copyPsaSets, w1, Option.some_bind, w2]
    rw [e12, w3, e3]

theorem writeUInt8_frame (buf : List Nat) (off : Nat) (v : Int) (out : List Nat)
    (h : writeUInt8 buf off v = some out) :
    out.length = buf.length ∧ ∀ i, i < off → out.getD i 0 = buf.getD i 0 := by
  rw [writeUInt8] at h
  split at h
  · cases h
    exact ⟨by simp, fun i hi => getD_set_ne buf off i _ 0 (by omega)⟩
  · cases h

theorem writeUInt16BE_frame (buf : List Nat) (off : Nat) (v : Int) (out : List Nat)
    (h : writeUInt16BE buf off v = some out) :
    out.length = buf.length ∧ ∀ i, i < off → out.getD i 0 = buf.getD i 0 := by
  rw [writeUInt16BE] at h
  split at h
  · cases h
    refine ⟨by simp, fun i hi => ?_⟩
    rw [getD_set_ne _ (off + 1) i _ 0 (by omega), getD_set_ne buf off i _ 0 (by omega)]
  · cases h

theorem writeUInt24BE_frame (buf : List Nat) (off : Nat) (v : Int) (out : List Nat)
    (h : writeUInt24BE buf off v = some out) :
    out.length = buf.length ∧ ∀ i, i < off → out.getD i 0 = buf.getD i 0 := by
  rw [writeUInt24BE] at h
  split at h
  · cases h
    refine ⟨by simp, fun i hi => ?_⟩
    rw [getD_set_ne _ (off + 2) i _ 0 (by omega), getD_set_ne _ (off + 1) i _ 0 (by omega),
      getD_set_ne buf off i _ 0 (by omega)]
  · cases h

theorem writeUInt32BE_frame (buf : List Nat) (off : Nat) (v : Int) (out : List Nat)
    (h : writeUInt32BE buf off v = some out) :
    out.length = buf.length ∧ ∀ i, i < off → out.getD i 0 = buf.getD i 0 := by
  rw [writeUInt32BE] at h
  split at h
  · cases h
    refine ⟨by simp, fun i hi => ?_⟩
    rw [getD_set_ne _ (off + 3) i _ 0 (by omega), getD_set_ne _ (off + 2) i _ 0 (by omega),
      getD_set_ne _ (off + 1) i _ 0 (by omega), getD_set_ne buf off i _ 0 (by omega)]
  · cases h

theorem copyU64_frame (buf : List Nat) (off : Nat) (v : Int) (out : List Nat)
    (h : copyU64 buf off v = some out) :
    out.length = buf.length ∧ ∀ i, i < off → out.getD i 0 = buf.getD i 0 := by
  simp only [copyU64] at h
  cases h1 : writeUInt32BE buf off (jsToInt32 (v.tdiv 4294967296)) with
  | none => rw [h1] at h; cases h
  | some b1 =>
    rw [h1] at h
    obtain ⟨hl1, hg1⟩ := writeUInt32BE_frame buf off _ b1 h1
    obtain ⟨hl2, hg2⟩ := writeUInt32BE_frame b1 (off + 4) _ out h
    exact ⟨by rw [hl2, hl1], fun i hi => by rw [hg2 i (by omega), hg1 i hi]⟩

theorem copyPsaSets_frame (ss : List (List Int)) : ∀ (buf : List Nat) (off : Nat)
    (out : List Nat), copyPsaSets ss buf off = some out →
    out.length = buf.length ∧ ∀ i, i < off → out.getD i 0 = buf.getD i 0 := by
  induction ss with
  | nil =>
    intro buf off out h
    simp only [copyPsaSets, Option.some.injEq] at h
    cases h
    exact ⟨rfl, fun _ _ => rfl⟩
  | cons s rest ih =>
    intro buf off out h
    simp only [copyPsaSets] at h
    cases h1 : writeUInt16BE buf off (Int.ofNat s.length) with
    | none => rw [h1] at h; simp only [Option.none_bind] at h; exact Option.noConfusion h
    | some b1 =>
      rw [h1] at h
      simp only [Option.some_bind] at h
      cases h2 : writeU8s b1 (off + 2) s with
      | none => rw [h2] at h; simp only [Option.none_bind] at h; exact Option.noConfusion h
      | some b2 =>
        rw [h2] at h
        simp only [Option.some_bind] at h
        obtain ⟨hl1, hg1⟩ := writeUInt16BE_frame buf off _ b1 h1
        obtain ⟨hl2, hg2⟩ := writeU8s_frame s b1 (off + 2) b2 h2
        obtain ⟨hl3, hg3⟩ := ih b2 (off + 2 + s.length) out h
        exact ⟨by rw [hl3, hl2, hl1], fun i hi => by
          rw [hg3 i (by omega), hg2 i (by omega), hg1 i hi]⟩

theorem copyPrim_frame (k : PKind) (bl : Nat) (v : EValue) (buf : List Nat) (off : Nat)
    (out : List Nat) (h : copyPrim k bl v buf off = some out) :
    out.length = buf.length ∧ ∀ i, i < off → out.getD i 0 = buf.getD i 0 := by
  unfold copyPrim at h
  split at h
  · cases h
    exact ⟨(fillZero_frame bl buf off).1, fun i hi => (fillZero_frame bl buf off).2 i hi⟩
  · cases h
    constructor
    · exact (writeCharsFrom_frame _ _ buf off 0).1
    · intro i hi
      exact (writeCharsFrom_frame _ _ buf off 0).2 i (by omega)
  · exact writeUInt8_frame buf off _ out h
  · exact writeUInt16BE_frame buf off _ out h
  · exact writeUInt24BE_frame buf off _ out h
  · exact writeUInt32BE_frame buf off _ out h
  · exact copyU64_frame buf off _ out h
  · exact writeU8s_frame _ buf off out h
  · exact writeU16s_frame _ buf off out h
  · exact writeU32s_frame _ buf off out h
  · split at h
    · cases h
      exact ⟨(storeBytes_frame _ buf off).1, fun i hi => (storeBytes_frame _ buf off).2 i hi⟩
    · cases h
  · rename_i mask ss
    cases h1 : writeUInt8 buf off (Int.ofNat (Nat.lor mask ss.length)) with
    | none => rw [h1] at h; cases h
    | some b1 =>
      rw [h1] at h
      obtain ⟨hl1, hg1⟩ := writeUInt8_frame buf off _ b1 h1
      obtain ⟨hl2, hg2⟩ := copyPsaSets_frame ss b1 (off + 1) out h
      exact ⟨by rw [hl2, hl1], fun i hi => by rw [hg2 i (by omega), hg1 i hi]⟩
  · cases h

theorem copy_frame (fuel : Nat) :
    (∀ e buf off out, copyElem fuel e buf off = some out →
      out.2.length = buf.length ∧ ∀ i, i < off → out.2.getD i 0 = buf.getD i 0) ∧
    (∀ st buf off out, copyEntries fuel st buf off = some out →
      out.2.length = buf.length ∧ ∀ i, i < off → out.2.getD i 0 = buf.getD i 0) := by
  induction fuel with
  | zero =>
    constructor
    · intro e buf off out h
      rw [copyElem] at h
      cases h
    · intro st buf off out h
      rw [copyEntries] at h
      cases h
  | succ f ih =>
    constructor
    · intro e buf off out h
      match e with
      | .prim k bl v =>
        simp only [copyElem] at h
        cases hcp : copyPrim k bl v buf off with
        | none => rw [hcp] at h; cases h
        | some b =>
          simp only [hcp, Option.some.injEq] at h
          cases h
          exact copyPrim_frame k bl v buf off b hcp
      | .box t bs bl v st =>
        simp only [copyElem] at h
        cases hset : setFirstS st "size" (.num (Int.ofNat bl)) with
        | none => rw [hset] at h; cases h
        | some st1 =>
          simp only [hset] at h
          cases hce : copyEntries f st1 buf off with
          | none => rw [hce] at h; cases h
          | some p =>
            cases p with
            | mk st2 b =>
              simp only [hce, Option.some.injEq] at h
              cases h
              exact ih.2 st1 buf off (st2, b) hce
    · intro st buf off out h
      match st with
      | [] =>
        simp only [copyEntries, Option.some.injEq] at h
        cases h
        exact ⟨rfl, fun _ _ => rfl⟩
      | (k, o, e) :: rest =>
        simp only [copyEntries] at h
        cases hce : copyElem f e buf (off + o) with
        | none => rw [hce] at h; cases h
        | some p1 =>
          cases p1 with
          | mk e1 b1 =>
            simp only [hce] at h
            cases hcr : copyEntries f rest b1 off with
            | none => rw [hcr] at h; cases h
            | some p2 =>
              cases p2 with
              | mk st2 b2 =>
                simp only [hcr, Option.some.injEq] at h
                cases h
                obtain ⟨hl1, hg1⟩ := ih.1 e buf (off + o) (e1, b1) hce
                obtain ⟨hl2, hg2⟩ := ih.2 rest b1 off (st2, b2) hcr
                simp only at hl1 hg1 hl2 hg2
                exact ⟨by rw [hl2, hl1], fun i hi => by rw [hg2 i hi, hg1 i (by omega)]⟩

theorem copyU64_splice (buf : List Nat) (off : Nat) (v : Int)
    (h0 : 0 ≤ v) (h1 : v < 9007199254740992) (hb : off + 8 ≤ buf.length) :
    copyU64 buf off v =
      some (splice buf off (be32 (v.tdiv 4294967296).toNat ++
        be32 (v.tmod 4294967296).toNat)) := by
  have hdq : v.tdiv 4294967296 = v / 4294967296 := Int.tdiv_eq_ediv h0 (by norm_num)
  have hmq : v.tmod 4294967296 = v % 4294967296 := Int.tmod_eq_emod h0 (by norm_num)
  have hq0 : 0 ≤ v / 4294967296 := by omega
  have hq1 : v / 4294967296 < 2147483648 := by omega
  have hj : jsToInt32 (v.tdiv 4294967296) = v / 4294967296 := by
    rw [hdq, jsToInt32]
    omega
  rw [copyU64]
  simp only [hj]
  rw [writeUInt32BE_splice _ _ _ hq0 (by omega) (by omega)]
  have hlow : v - v / 4294967296 * 4294967296 = v % 4294967296 := by omega
  simp only [hlow]
  rw [writeUInt32BE_splice _ _ _ (by omega) (by omega)
    (by rw [splice_length _ _ _ (by simp [be32]; omega)]; omega)]
  rw [show off + 4 = off + (be32 (v / 4294967296).toNat).length from by simp [be32],
    splice_append _ _ _ _ (by simp [be32]; omega)]
  rw [hdq, hmq]

theorem psaWire_length (mask : Nat) (ss : List (List Int)) :
    (psaWire mask ss).length = psaByteLength ss := by
  rw [psaWire, psaByteLength, List.length_cons, psaSets_flatten_length]
  omega

/-- Under the round-trip value conditions, the wire image of a primitive
element is exactly `byteLength` bytes. -/
theorem wirePrim_length (k : PKind) (bl : Nat) (v : EValue)
    (h : elemRoundOkB (.prim k bl v) = true) : (wirePrim k bl v).length = bl := by
  cases k <;> cases v <;> try exact Bool.noConfusion h
  case empty.undef =>
    simp [wirePrim]
  case charArray.str s =>
    replace h : (bl == s.length && s.data.all fun c => c.toNat < 256) = true := h
    simp [wirePrim]
  case uint8.num n =>
    replace h : (bl == 1 && decide (0 ≤ n) && decide (n < 256)) = true := h
    simp only [Bool.and_eq_true, beq_iff_eq] at h
    simp [wirePrim, h.1.1]
  case uint16.num n =>
    replace h : (bl == 2 && decide (0 ≤ n) && decide (n < 65536)) = true := h
    simp only [Bool.and_eq_true, beq_iff_eq] at h
    simp [wirePrim, be16, h.1.1]
  case uint24.num n =>
    replace h : (bl == 3 && decide (0 ≤ n) && decide (n < 16777216)) = true := h
    simp only [Bool.and_eq_true, beq_iff_eq] at h
    simp [wirePrim, be24, h.1.1]
  case uint32.num n =>
    replace h : (bl == 4 && decide (0 ≤ n) && decide (n < 4294967296)) = true := h
    simp only [Bool.and_eq_true, beq_iff_eq] at h
    simp [wirePrim, be32, h.1.1]
  case uint64.num n =>
    replace h : (bl == 8 && decide (0 ≤ n) && decide (n < 9007199254740992)) = true := h
    simp only [Bool.and_eq_true, beq_iff_eq] at h
    simp [wirePrim, be32, h.1.1]
  case uint8Array.arr vs =>
    replace h : (bl == vs.length && vs.all fun b => decide (0 ≤ b) && decide (b < 256)) = true := h
    simp only [Bool.and_eq_true, beq_iff_eq] at h
    simp [wirePrim, h.1]
  case uint16Array.arr vs =>
    replace h :
        (bl == 2 * vs.length && vs.all fun b => decide (0 ≤ b) && decide (b < 65536)) = true := h
    simp only [Bool.and_eq_true, beq_iff_eq] at h
    show ((vs.map fun x => be16 x.toNat).flatten).length = bl
    rw [be16_flatten_length]
    omega
  case uint32Array.arr vs =>
    replace h :
        (bl == 4 * vs.length && vs.all fun b => decide (0 ≤ b) && decide (b < 4294967296)) = true := h
    simp only [Bool.and_eq_true, beq_iff_eq] at h
    show ((vs.map fun x => be32 x.toNat).flatten).length = bl
    rw [be32_flatten_length]
    omega
  case paramSetArray.psa mask ss =>
    replace h : (bl == psaByteLength ss && decide (Nat.lor mask ss.length < 256) &&
        ss.all fun s => decide (s.length < 65536) &&
          s.all fun b => decide (0 ≤ b) && decide (b < 256)) = true := h
    simp only [Bool.and_eq_true, beq_iff_eq] at h
    show (psaWire mask ss).length = bl
    rw [psaWire_length]
    omega

/-- Under the round-trip value conditions and in bounds, `copy` of a
primitive element writes exactly its wire image at `off`. -/
theorem copyPrim_splice (k : PKind) (bl : Nat) (v : EValue) (buf : List Nat) (off : Nat)
    (h : elemRoundOkB (.prim k bl v) = true) (hb : off + bl ≤ buf.length) :
    copyPrim k bl v buf off = some (splice buf off (wirePrim k bl v)) := by
  cases k <;> cases v <;> try exact Bool.noConfusion h
  case empty.undef =>
    show some (fillZero buf off bl) = some (splice buf off (List.replicate bl 0))
    rw [fillZero_splice bl buf off hb]
  case charArray.str s =>
    show some (writeCharsFrom buf off s 0 bl) =
      some (splice buf off ((List.range bl).map (charByteAt s)))
    rw [writeCharsFrom_splice s bl buf off 0 (by omega)]
    simp
  case uint8.num n =>
    replace h : (bl == 1 && decide (0 ≤ n) && decide (n < 256)) = true := h
    simp only [Bool.and_eq_true, beq_iff_eq, decide_eq_true_eq] at h
    show writeUInt8 buf off n = some (splice buf off [n.toNat])
    exact writeUInt8_splice buf off n h.1.2 h.2 (by omega)
  case uint16.num n =>
    replace h : (bl == 2 && decide (0 ≤ n) && decide (n < 65536)) = true := h
    simp only [Bool.and_eq_true, beq_iff_eq, decide_eq_true_eq] at h
    show writeUInt16BE buf off n = some (splice buf off (be16 n.toNat))
    exact writeUInt16BE_splice buf off n h.1.2 h.2 (by omega)
  case uint24.num n =>
    replace h : (bl == 3 && decide (0 ≤ n) && decide (n < 16777216)) = true := h
    simp only [Bool.and_eq_true, beq_iff_eq, decide_eq_true_eq] at h
    show writeUInt24BE buf off n = some (splice buf off (be24 n.toNat))
    exact writeUInt24BE_splice buf off n h.1.2 h.2 (by omega)
  case uint32.num n =>
    replace h : (bl == 4 && decide (0 ≤ n) && decide (n < 4294967296)) = true := h
    simp only [Bool.and_eq_true, beq_iff_eq, decide_eq_true_eq] at h
    show writeUInt32BE buf off n = some (splice buf off (be32 n.toNat))
    exact writeUInt32BE_splice buf off n h.1.2 h.2 (by omega)
  case uint64.num n =>
    replace h : (bl == 8 && decide (0 ≤ n) && decide (n < 9007199254740992)) = true := h
    simp only [Bool.and_eq_true, beq_iff_eq, decide_eq_true_eq] at h
    show copyU64 buf off n =
      some (splice buf off (be32 (n.tdiv 4294967296).toNat ++ be32 (n.tmod 4294967296).toNat))
    exact copyU64_splice buf off n h.1.2 h.2 (by omega)
  case uint8Array.arr vs =>
    replace h : (bl == vs.length && vs.all fun b => decide (0 ≤ b) && decide (b < 256)) = true := h
    simp only [Bool.and_eq_true, beq_iff_eq, List.all_eq_true, decide_eq_true_eq] at h
    show writeU8s buf off vs = some (splice buf off (vs.map Int.toNat))
    exact writeU8s_splice vs buf off h.2 (by omega)
  case uint16Array.arr vs =>
    replace h :
        (bl == 2 * vs.length && vs.all fun b => decide (0 ≤ b) && decide (b < 65536)) = true := h
    simp only [Bool.and_eq_true, beq_iff_eq, List.all_eq_true, decide_eq_true_eq] at h
    show writeU16s buf off vs = some (splice buf off ((vs.map fun x => be16 x.toNat).flatten))
    exact writeU16s_splice vs buf off h.2 (by omega)
  case uint32Array.arr vs =>
    replace h :
        (bl == 4 * vs.length && vs.all fun b => decide (0 ≤ b) && decide (b < 4294967296)) = true := h
    simp only [Bool.and_eq_true, beq_iff_eq, List.all_eq_true, decide_eq_true_eq] at h
    show writeU32s buf off vs = some (splice buf off ((vs.map fun x => be32 x.toNat).flatten))
    exact writeU32s_splice vs buf off h.2 (by omega)
  case paramSetArray.psa mask ss =>
    replace h : (bl == psaByteLength ss && decide (Nat.lor mask ss.length < 256) &&
        ss.all fun s => decide (s.length < 65536) &&
          s.all fun b => decide (0 ≤ b) && decide (b < 256)) = true := h
    simp only [Bool.and_eq_true, beq_iff_eq, List.all_eq_true, decide_eq_true_eq] at h
    obtain ⟨⟨hbl, hm⟩, hs⟩ := h
    have hpb : psaByteLength ss = 1 + (ss.map fun s => 2 + s.length).sum := rfl
    have hw := writeUInt8_splice buf off (Int.ofNat (Nat.lor mask ss.length))
      (Int.ofNat_nonneg _) (Int.ofNat_lt.mpr hm) (by omega)
    show (match writeUInt8 buf off (Int.ofNat (Nat.lor mask ss.length)) with
      | none => none
      | some b1 => copyPsaSets ss b1 (off + 1)) =
      some (splice buf off (psaWire mask ss))
    rw [hw]
    show copyPsaSets ss (splice buf off [Nat.lor mask ss.length])
      (off + [Nat.lor mask ss.length].length) = some (splice buf off (psaWire mask ss))
    rw [copyPsaSets_splice ss _ _ hs
      (by rw [splice_length _ _ _ (by simp <;> omega)]; simp only [List.length_singleton]; omega)]
    rw [splice_append _ _ _ _
      (by rw [psaSets_flatten_length]; simp only [List.length_singleton]; omega)]
    rfl

/-- Under the round-trip conditions, the concatenated wire images of a
struct's elements measure exactly the byte-length sum. -/
theorem elemWire_flatten_length (st : List Entry)
    (h : (st.all fun q => elemRoundOkB q.2.2) = true) :
    ((st.map fun q => elemWire q.2.2).flatten).length = sumBL st := by
  induction st with
  | nil => rfl
  | cons q rest ih =>
    rw [List.all_cons, Bool.and_eq_true] at h
    have hhd : (elemWire q.2.2).length = elemByteLength q.2.2 := by
      cases hq : q.2.2 with
      | prim k bl v =>
        rw [elemWire, elemByteLength]
        exact wirePrim_length k bl v (by rw [hq] at h; exact h.1)
      | box t bs bl v stc =>
        have := h.1
        rw [hq] at this
        simp [elemRoundOkB] at this
    rw [List.map_cons, List.flatten_cons, List.length_append, ih h.2, hhd]
    simp [sumBL]

theorem elemByteLength_setValue (e : Elem) (v : EValue) :
    elemByteLength (elemSetValue e v) = elemByteLength e := by
  cases e <;> rfl

theorem elemKind_setValue (e : Elem) (v : EValue) :
    elemKind (elemSetValue e v) = elemKind e := by
  cases e <;> rfl

/-- Description of a successful `set`: the first entry named `k` has its
value replaced, everything else is untouched. -/
theorem setFirstS_eq (k : String) (v : EValue) : ∀ (st st' : List Entry),
    setFirstS st k v = some st' →
    ∃ i o e, st[i]? = some (k, o, e) ∧
      (∀ j, j < i → ∀ q, st[j]? = some q → q.1 ≠ k) ∧
      st' = st.set i (k, o, elemSetValue e v) := by
  intro st
  induction st with
  | nil => intro st' h; exact Option.noConfusion h
  | cons p rest ih =>
    intro st' h
    obtain ⟨k', o, e⟩ := p
    rw [setFirstS] at h
    by_cases hk : (k' == k) = true
    · rw [if_pos hk] at h
      injection h with h
      rw [beq_iff_eq] at hk
      subst hk
      exact ⟨0, o, e, by simp, by omega, by rw [← h]; rfl⟩
    · rw [if_neg hk] at h
      cases hr : setFirstS rest k v with
      | none => rw [hr] at h; exact Option.noConfusion h
      | some r =>
        rw [hr] at h
        injection h with h
        obtain ⟨i, o1, e1, h1, h2, h3⟩ := ih r hr
        refine ⟨i + 1, o1, e1, by simpa using h1, ?_, ?_⟩
        · intro j hj q hq
          cases j with
          | zero =>
            rw [List.getElem?_cons_zero] at hq
            injection hq with hq
            rw [← hq]
            simpa [beq_iff_eq] using hk
          | succ j' => exact h2 j' (by omega) q (by simpa using hq)
        · rw [← h, h3]
          rfl

/-- `set` preserves every entry's name, offset, byte length and kind. -/
theorem setFirstS_skeleton (k : String) (v : EValue) : ∀ (st st' : List Entry),
    setFirstS st k v = some st' →
    st'.map entrySkel = st.map entrySkel := by
  intro st
  induction st with
  | nil => intro st' h; exact Option.noConfusion h
  | cons p rest ih =>
    intro st' h
    obtain ⟨k', o, e⟩ := p
    rw [setFirstS] at h
    by_cases hk : (k' == k) = true
    · rw [if_pos hk] at h
      injection h with h
      rw [← h, List.map_cons, List.map_cons]
      rw [show entrySkel (k', o, elemSetValue e v) = entrySkel (k', o, e) from by
        rw [entrySkel, entrySkel, elemByteLength_setValue, elemKind_setValue]]
    · rw [if_neg hk] at h
      cases hr : setFirstS rest k v with
      | none => rw [hr] at h; exact Option.noConfusion h
      | some r =>
        rw [hr] at h
        injection h with h
        rw [← h, List.map_cons, List.map_cons, ih r hr]

/-- The offset invariant depends only on the entry skeletons. -/
theorem offsetsRunningB_congr : ∀ (st st2 : List Entry),
    st.map entrySkel = st2.map entrySkel →
    ∀ a, offsetsRunningB a st = offsetsRunningB a st2 := by
  intro st
  induction st with
  | nil =>
    intro st2 h a
    cases st2 with
    | nil => rfl
    | cons q r => exact absurd h (by simp)
  | cons q rest ih =>
    intro st2 h a
    cases st2 with
    | nil => exact absurd h (by simp)
    | cons q2 rest2 =>
      simp only [List.map_cons, List.cons.injEq] at h
      obtain ⟨hq, hrest⟩ := h
      obtain ⟨q1, qo, qe⟩ := q
      obtain ⟨p1, po, pe⟩ := q2
      simp only [entrySkel, Prod.mk.injEq] at hq
      obtain ⟨_, ho, hbl, _⟩ := hq
      rw [offsetsRunningB, offsetsRunningB, ho, hbl, ih rest2 hrest]

/-- The byte-length sum depends only on the entry skeletons. -/
theorem sumBL_congr (st st2 : List Entry)
    (h : st.map entrySkel = st2.map entrySkel) : sumBL st = sumBL st2 := by
  have h2 := congrArg (List.map fun x : String × Nat × Nat × Option PKind => x.2.2.1) h
  rw [List.map_map, List.map_map] at h2
  rw [sumBL, sumBL]
  exact congrArg List.sum h2

/-- In bounds, under the per-element round-trip conditions and with offsets
running from `a0`, the `Box.copy` loop writes the concatenation of the wire
images at `off + a0` and returns the entries unchanged. -/
theorem copyEntries_wires : ∀ (st : List Entry) (fuel : Nat) (buf : List Nat) (off a0 : Nat),
    st.length + 1 ≤ fuel →
    (st.all fun q => elemRoundOkB q.2.2) = true →
    offsetsRunningB a0 st = true →
    off + a0 + sumBL st ≤ buf.length →
    copyEntries fuel st buf off =
      some (st, splice buf (off + a0) ((st.map fun q => elemWire q.2.2).flatten)) := by
  intro st
  induction st with
  | nil =>
    intro fuel buf off a0 hf _ _ _
    cases fuel with
    | zero => omega
    | succ f =>
      rw [copyEntries]
      simp [splice_nil]
  | cons q rest ih =>
    intro fuel buf off a0 hf hok hrun hb
    cases fuel with
    | zero => omega
    | succ f =>
      cases f with
      | zero => simp at hf
      | succ f2 =>
        obtain ⟨k, o, e⟩ := q
        rw [List.all_cons, Bool.and_eq_true] at hok
        rw [offsetsRunningB, Bool.and_eq_true, beq_iff_eq] at hrun
        obtain ⟨ho, hrun⟩ := hrun
        cases e with
        | box t bs bl vv stc => exact Bool.noConfusion hok.1
        | prim pk bl vv =>
          have hsum : sumBL ((k, o, Elem.prim pk bl vv) :: rest) = bl + sumBL rest := by
            simp [sumBL, elemByteLength]
          rw [hsum] at hb
          have hwl : (wirePrim pk bl vv).length = bl := wirePrim_length pk bl vv hok.1
          have hcp : copyPrim pk bl vv buf (off + o) =
              some (splice buf (off + o) (wirePrim pk bl vv)) :=
            copyPrim_splice pk bl vv buf (off + o) hok.1 (by omega)
          have hrest : copyEntries (f2 + 1) rest (splice buf (off + o) (wirePrim pk bl vv)) off =
              some (rest, splice (splice buf (off + o) (wirePrim pk bl vv)) (off + (a0 + bl))
                ((rest.map fun q => elemWire q.2.2).flatten)) := by
            have := ih (f2 + 1) (splice buf (off + o) (wirePrim pk bl vv)) off (a0 + bl)
              (by simp at hf; omega) hok.2 (by simpa [elemByteLength] using hrun)
              (by rw [splice_length _ _ _ (by rw [hwl]; omega)]; omega)
            simpa using this
          rw [copyEntries, copyElem, hcp]
          simp only [hrest]
          rw [ho]
          rw [show off + (a0 + bl) = off + a0 + (wirePrim pk bl vv).length from by rw [hwl]; omega]
          rw [splice_append _ _ _ _ (by rw [hwl, elemWire_flatten_length rest hok.2]; omega)]
          simp [elemWire]

/-- `Box.buffer()` under the round-trip conditions: the returned box carries
the size-assigned struct and the buffer is exactly the concatenation of the
wire images. -/
theorem bufferB_wires (B : Box) (st1 : List Entry)
    (hset : setFirstS B.struct "size" (.num (Int.ofNat B.byteLength)) = some st1)
    (hok : (st1.all fun q => elemRoundOkB q.2.2) = true)
    (hrun : offsetsRunningB 0 st1 = true)
    (hsum : sumBL st1 = B.byteLength) :
    bufferB (B.struct.length + 1) B =
      some ({B with struct := st1}, (st1.map fun q => elemWire q.2.2).flatten) := by
  have hlen : st1.length = B.struct.length := by
    have h2 := congrArg List.length (setFirstS_skeleton _ _ _ _ hset)
    simpa using h2
  have hflat : ((st1.map fun q => elemWire q.2.2).flatten).length = sumBL st1 :=
    elemWire_flatten_length st1 hok
  have hsp : splice (List.replicate B.byteLength 0) (0 + 0)
      ((st1.map fun q => elemWire q.2.2).flatten) =
      (st1.map fun q => elemWire q.2.2).flatten := by
    rw [splice, hflat, hsum]
    simp
  rw [bufferB, boxCopy, hset]
  simp only [copyEntries_wires st1 (B.struct.length + 1) (List.replicate B.byteLength 0) 0 0
    (by omega) hok hrun (by simp [hsum]), hsp]

/-- Reading back a `UInt8Array` wire image returns the stored values. -/
theorem loadU8s_roundtrip (vs : List Int) : ∀ (buf : List Nat) (off : Nat),
    (∀ x ∈ vs, 0 ≤ x ∧ x < 256) →
    off + vs.length ≤ buf.length →
    (∀ j, j < vs.length → buf.getD (off + j) 0 = (vs.map Int.toNat).getD j 0) →
    readU8s buf off vs.length = some vs := by
  induction vs with
  | nil => intro buf off _ _ _; rfl
  | cons x rest ih =>
    intro buf off hv hb hw
    have hx := hv x (by simp)
    have h0 : readUInt8 buf off = some x.toNat := by
      rw [readUInt8, if_pos (show off + 1 ≤ buf.length from by simp at hb; omega)]
      have h1 := hw 0 (by simp)
      simp only [Nat.add_zero, List.map_cons, List.getD_cons_zero] at h1
      rw [h1]
    rw [List.length_cons, readU8s, h0]
    rw [ih buf (off + 1) (fun y hy => hv y (by simp [hy])) (by simp at hb; omega)
      (fun j hj => by
        have h2 := hw (j + 1) (by simp <;> omega)
        rw [show off + (j + 1) = off + 1 + j from by omega] at h2
        simpa using h2)]
    show some (Int.ofNat x.toNat :: rest) = some (x :: rest)
    rw [show Int.ofNat x.toNat = x from Int.toNat_of_nonneg hx.1]

/-- Reading back a `UInt16BEArray` wire image returns the stored values. -/
theorem loadU16s_roundtrip (vs : List Int) : ∀ (buf : List Nat) (off : Nat),
    (∀ x ∈ vs, 0 ≤ x ∧ x < 65536) →
    off + 2 * vs.length ≤ buf.length →
    (∀ j, j < 2 * vs.length →
      buf.getD (off + j) 0 = ((vs.map fun x => be16 x.toNat).flatten).getD j 0) →
    readU16s buf off vs.length = some vs := by
  induction vs with
  | nil => intro buf off _ _ _; rfl
  | cons x rest ih =>
    intro buf off hv hb hw
    have hx := hv x (by simp)
    have hxn : x.toNat < 65536 := by omega
    have hwj : ∀ j, j < 2 →
        ((((x :: rest).map fun y => be16 y.toNat).flatten).getD j 0) =
          (be16 x.toNat).getD j 0 := by
      intro j hj
      rw [List.map_cons, List.flatten_cons]
      exact List.getD_append _ _ _ _ (by simp [be16]; omega)
    have h0 : readUInt16BE buf off = some x.toNat := by
      rw [readUInt16BE, if_pos (show off + 2 ≤ buf.length from by simp at hb; omega)]
      have h1 := hw 0 (by simp <;> omega)
      have h2 := hw 1 (by simp <;> omega)
      rw [hwj 0 (by omega)] at h1
      rw [hwj 1 (by omega)] at h2
      simp only [Nat.add_zero] at h1
      simp only [be16, List.getD_cons_zero, List.getD_cons_succ] at h1 h2
      rw [h1, h2]
      congr 1
      omega
    rw [List.length_cons, readU16s, h0]
    rw [ih buf (off + 2) (fun y hy => hv y (by simp [hy])) (by simp at hb; omega)
      (fun j hj => by
        have h2 := hw (2 + j) (by simp <;> omega)
        rw [show off + (2 + j) = off + 2 + j from by omega] at h2
        rw [h2, List.map_cons, List.flatten_cons,
          List.getD_append_right _ _ _ _ (by simp [be16])]
        simp [be16])]
    show some (Int.ofNat x.toNat :: rest) = some (x :: rest)
    rw [show Int.ofNat x.toNat = x from Int.toNat_of_nonneg hx.1]

/-- Reading back a `UInt32BEArray` wire image returns the stored values. -/
theorem loadU32s_roundtrip (vs : List Int) : ∀ (buf : List Nat) (off : Nat),
    (∀ x ∈ vs, 0 ≤ x ∧ x < 4294967296) →
    off + 4 * vs.length ≤ buf.length →
    (∀ j, j < 4 * vs.length →
      buf.getD (off + j) 0 = ((vs.map fun x => be32 x.toNat).flatten).getD j 0) →
    readU32s buf off vs.length = some vs := by
  induction vs with
  | nil => intro buf off _ _ _; rfl
  | cons x rest ih =>
    intro buf off hv hb hw
    have hx := hv x (by simp)
    have hxn : x.toNat < 4294967296 := by omega
    have hwj : ∀ j, j < 4 →
        ((((x :: rest).map fun y => be32 y.toNat).flatten).getD j 0) =
          (be32 x.toNat).getD j 0 := by
      intro j hj
      rw [List.map_cons, List.flatten_cons]
      exact List.getD_append _ _ _ _ (by simp [be32]; omega)
    have h0 : readUInt32BE buf off = some x.toNat := by
      rw [readUInt32BE, if_pos (show off + 4 ≤ buf.length from by simp at hb; omega)]
      have h1 := hw 0 (by simp <;> omega)
      have h2 := hw 1 (by simp <;> omega)
      have h3 := hw 2 (by simp <;> omega)
      have h4 := hw 3 (by simp <;> omega)
      rw [hwj 0 (by omega)] at h1
      rw [hwj 1 (by omega)] at h2
      rw [hwj 2 (by omega)] at h3
      rw [hwj 3 (by omega)] at h4
      simp only [Nat.add_zero] at h1
      simp only [be32, List.getD_cons_zero, List.getD_cons_succ] at h1 h2 h3 h4
      rw [h1, h2, h3, h4]
      congr 1
      omega
    rw [List.length_cons, readU32s, h0]
    rw [ih buf (off + 4) (fun y hy => hv y (by simp [hy])) (by simp at hb; omega)
      (fun j hj => by
        have h2 := hw (4 + j) (by simp <;> omega)
        rw [show off + (4 + j) = off + 4 + j from by omega] at h2
        rw [h2, List.map_cons, List.flatten_cons,
          List.getD_append_right _ _ _ _ (by simp [be32])]
        simp [be32])]
    show some (Int.ofNat x.toNat :: rest) = some (x :: rest)
    rw [show Int.ofNat x.toNat = x from Int.toNat_of_nonneg hx.1]

/-- The `CharArray` wire image of a byte-clean string is its ASCII bytes. -/
theorem charWire_eq_ascii (s : String)
    (hc : ∀ c ∈ s.data, c.toNat < 256) :
    (List.range s.length).map (charByteAt s) = asciiBytes s := by
  apply List.ext_getElem
  · rw [List.length_map, List.length_range, asciiBytes, List.length_map]
    rfl
  · intro i h1 h2
    simp only [List.getElem_map, List.getElem_range, asciiBytes]
    rw [charByteAt]
    have hi : i < s.data.length := by simpa [asciiBytes] using h2
    rw [List.get?_eq_getElem?, List.getElem?_eq_getElem hi]
    exact Nat.mod_eq_of_lt (hc _ (List.getElem_mem hi))

/-- Decoding the `CharArray` wire image of a byte-clean string restores the
string. -/
theorem charWire_decode (s : String)
    (hc : ∀ c ∈ s.data, c.toNat < 256) :
    decode ((List.range s.length).map (charByteAt s)) = s := by
  rw [charWire_eq_ascii s hc, decode, asciiBytes, List.map_map]
  have : s.data.map (Char.ofNat ∘ Char.toNat) = s.data := by
    apply List.map_congr_left ?_ |>.trans (List.map_id _)
    intro c _
    exact Char.ofNat_toNat c
  rw [this]

/-- Loading at the spot where a primitive element's wire image sits restores
the serialized element: the readers recover the original value, and the
no-op loaders (`Empty`, `ParameterSetArray`) keep their stored value, which
the pairing requires to agree. -/
theorem loadPrim_roundtrip (k : PKind) (bl : Nat) (v v' : EValue) (buf : List Nat) (off : Nat)
    (hs : elemRoundOkB (.prim k bl v) = true)
    (hs' : elemRoundOkB (.prim k bl v') = true)
    (hp : elemPairOkB (.prim k bl v) (.prim k bl v') = true)
    (hb : off + bl ≤ buf.length)
    (hw : ∀ j, j < bl → buf.getD (off + j) 0 = (wirePrim k bl v).getD j 0) :
    loadPrim k bl v' buf off = some (.prim k bl v) := by
  cases k <;> cases v <;> try exact Bool.noConfusion hs
  case empty.undef =>
    replace hp : ((PKind.empty == PKind.empty) && (bl == bl) &&
        (EValue.undef == v')) = true := hp
    simp only [Bool.and_eq_true, beq_iff_eq] at hp
    rw [← hp.2]
    rfl
  case charArray.str s =>
    cases v' <;> try exact Bool.noConfusion hs'
    rename_i s'
    replace hs : (bl == s.length && s.data.all fun c => c.toNat < 256) = true := hs
    simp only [Bool.and_eq_true, beq_iff_eq, List.all_eq_true,
      decide_eq_true_eq] at hs
    obtain ⟨hbl, hchars⟩ := hs
    have hslice : (buf.take (off + bl)).drop off = (List.range bl).map (charByteAt s) := by
      apply List.ext_getElem
      · rw [List.length_drop, List.length_take, List.length_map, List.length_range]
        omega
      · intro i hi1 hi2
        have hi : i < bl := by
          rw [List.length_drop, List.length_take] at hi1
          omega
        rw [List.getElem_drop, List.getElem_take]
        rw [show buf[off + i] = buf.getD (off + i) 0 from
          (List.getD_eq_getElem buf 0 (by omega)).symm]
        rw [hw i hi]
        rw [show (wirePrim PKind.charArray bl (EValue.str s)).getD i 0 =
          ((List.range bl).map (charByteAt s)).getD i 0 from rfl]
        rw [List.getD_eq_getElem _ 0 (by simpa using hi)]
    show some (Elem.prim .charArray bl (.str (decode ((buf.take (off + bl)).drop off)))) =
      some (.prim .charArray bl (.str s))
    rw [hslice, hbl, charWire_decode s hchars]
  case uint8.num n =>
    cases v' <;> try exact Bool.noConfusion hs'
    rename_i n'
    replace hs : (bl == 1 && decide (0 ≤ n) && decide (n < 256)) = true := hs
    simp only [Bool.and_eq_true, beq_iff_eq, decide_eq_true_eq] at hs
    obtain ⟨⟨hbl, h0⟩, h1⟩ := hs
    have w0 : buf.getD off 0 = n.toNat := by
      have e := hw 0 (by omega)
      replace e : buf.getD (off + 0) 0 = [n.toNat].getD 0 0 := e
      simpa using e
    show (readUInt8 buf off).map (fun r => Elem.prim .uint8 bl (.num (Int.ofNat r))) =
      some (.prim .uint8 bl (.num n))
    rw [readUInt8, if_pos (show off + 1 ≤ buf.length from by omega), w0]
    rw [Option.map_some', show Int.ofNat n.toNat = n from Int.toNat_of_nonneg h0]
  case uint16.num n =>
    cases v' <;> try exact Bool.noConfusion hs'
    rename_i n'
    replace hs : (bl == 2 && decide (0 ≤ n) && decide (n < 65536)) = true := hs
    simp only [Bool.and_eq_true, beq_iff_eq, decide_eq_true_eq] at hs
    obtain ⟨⟨hbl, h0⟩, h1⟩ := hs
    have hn : n.toNat < 65536 := by omega
    have w0 : buf.getD off 0 = n.toNat / 256 % 256 := by
      have e := hw 0 (by omega)
      replace e : buf.getD (off + 0) 0 = (be16 n.toNat).getD 0 0 := e
      simpa [be16] using e
    have w1 : buf.getD (off + 1) 0 = n.toNat % 256 := by
      have e := hw 1 (by omega)
      replace e : buf.getD (off + 1) 0 = (be16 n.toNat).getD 1 0 := e
      simpa [be16] using e
    show (readUInt16BE buf off).map (fun r => Elem.prim .uint16 bl (.num (Int.ofNat r))) =
      some (.prim .uint16 bl (.num n))
    rw [readUInt16BE, if_pos (show off + 2 ≤ buf.length from by omega), w0, w1]
    rw [Option.map_some']
    rw [show 256 * (n.toNat / 256 % 256) + n.toNat % 256 = n.toNat from by omega]
    rw [show Int.ofNat n.toNat = n from Int.toNat_of_nonneg h0]
  case uint24.num n =>
    cases v' <;> try exact Bool.noConfusion hs'
    rename_i n'
    replace hs : (bl == 3 && decide (0 ≤ n) && decide (n < 16777216)) = true := hs
    simp only [Bool.and_eq_true, beq_iff_eq, decide_eq_true_eq] at hs
    obtain ⟨⟨hbl, h0⟩, h1⟩ := hs
    have hn : n.toNat < 16777216 := by omega
    have w0 : buf.getD off 0 = n.toNat / 65536 % 256 := by
      have e := hw 0 (by omega)
      replace e : buf.getD (off + 0) 0 = (be24 n.toNat).getD 0 0 := e
      simpa [be24] using e
    have w1 : buf.getD (off + 1) 0 = n.toNat / 256 % 256 := by
      have e := hw 1 (by omega)
      replace e : buf.getD (off + 1) 0 = (be24 n.toNat).getD 1 0 := e
      simpa [be24] using e
    have w2 : buf.getD (off + 2) 0 = n.toNat % 256 := by
      have e := hw 2 (by omega)
      replace e : buf.getD (off + 2) 0 = (be24 n.toNat).getD 2 0 := e
      simpa [be24] using e
    show (readUInt24BE buf off).map (fun r => Elem.prim .uint24 bl (.num (Int.ofNat r))) =
      some (.prim .uint24 bl (.num n))
    rw [readUInt24BE, if_pos (show off + 3 ≤ buf.length from by omega), w0, w1, w2]
    rw [Option.map_some']
    rw [show 65536 * (n.toNat / 65536 % 256) + 256 * (n.toNat / 256 % 256) +
      n.toNat % 256 = n.toNat from by omega]
    rw [show Int.ofNat n.toNat = n from Int.toNat_of_nonneg h0]
  case uint32.num n =>
    cases v' <;> try exact Bool.noConfusion hs'
    rename_i n'
    replace hs : (bl == 4 && decide (0 ≤ n) && decide (n < 4294967296)) = true := hs
    simp only [Bool.and_eq_true, beq_iff_eq, decide_eq_true_eq] at hs
    obtain ⟨⟨hbl, h0⟩, h1⟩ := hs
    have hn : n.toNat < 4294967296 := by omega
    have w0 : buf.getD off 0 = n.toNat / 16777216 % 256 := by
      have e := hw 0 (by omega)
      replace e : buf.getD (off + 0) 0 = (be32 n.toNat).getD 0 0 := e
      simpa [be32] using e
    have w1 : buf.getD (off + 1) 0 = n.toNat / 65536 % 256 := by
      have e := hw 1 (by omega)
      replace e : buf.getD (off + 1) 0 = (be32 n.toNat).getD 1 0 := e
      simpa [be32] using e
    have w2 : buf.getD (off + 2) 0 = n.toNat / 256 % 256 := by
      have e := hw 2 (by omega)
      replace e : buf.getD (off + 2) 0 = (be32 n.toNat).getD 2 0 := e
      simpa [be32] using e
    have w3 : buf.getD (off + 3) 0 = n.toNat % 256 := by
      have e := hw 3 (by omega)
      replace e : buf.getD (off + 3) 0 = (be32 n.toNat).getD 3 0 := e
      simpa [be32] using e
    show (readUInt32BE buf off).map (fun r => Elem.prim .uint32 bl (.num (Int.ofNat r))) =
      some (.prim .uint32 bl (.num n))
    rw [readUInt32BE, if_pos (show off + 4 ≤ buf.length from by omega), w0, w1, w2, w3]
    rw [Option.map_some']
    rw [show 16777216 * (n.toNat / 16777216 % 256) + 65536 * (n.toNat / 65536 % 256) +
      256 * (n.toNat / 256 % 256) + n.toNat % 256 = n.toNat from by omega]
    rw [show Int.ofNat n.toNat = n from Int.toNat_of_nonneg h0]
  case uint64.num n =>
    cases v' <;> try exact Bool.noConfusion hs'
    rename_i n'
    replace hs : (bl == 8 && decide (0 ≤ n) && decide (n < 9007199254740992)) = true := hs
    simp only [Bool.and_eq_true, beq_iff_eq, decide_eq_true_eq] at hs
    obtain ⟨⟨hbl, h0⟩, h1⟩ := hs
    have hdq : n.tdiv 4294967296 = n / 4294967296 := Int.tdiv_eq_ediv h0 (by norm_num)
    have hmq : n.tmod 4294967296 = n % 4294967296 := Int.tmod_eq_emod h0 (by norm_num)
    have hA32 : (n.tdiv 4294967296).toNat < 4294967296 := by rw [hdq]; omega
    have hB32 : (n.tmod 4294967296).toNat < 4294967296 := by rw [hmq]; omega
    have wf : ∀ j, j < 4 →
        buf.getD (off + j) 0 = (be32 (n.tdiv 4294967296).toNat).getD j 0 := by
      intro j hj
      have e := hw j (by omega)
      replace e : buf.getD (off + j) 0 =
        (be32 (n.tdiv 4294967296).toNat ++ be32 (n.tmod 4294967296).toNat).getD j 0 := e
      rw [List.getD_append _ _ _ _ (by simp [be32] <;> omega)] at e
      exact e
    have ws : ∀ j, j < 4 →
        buf.getD (off + 4 + j) 0 = (be32 (n.tmod 4294967296).toNat).getD j 0 := by
      intro j hj
      have e := hw (4 + j) (by omega)
      rw [show off + (4 + j) = off + 4 + j from by omega] at e
      replace e : buf.getD (off + 4 + j) 0 =
        (be32 (n.tdiv 4294967296).toNat ++ be32 (n.tmod 4294967296).toNat).getD (4 + j) 0 := e
      rw [List.getD_append_right _ _ _ _ (by simp [be32] <;> omega)] at e
      rw [e]
      congr 1
      simp [be32]
    have hhigh : readUInt32BE buf off = some (n.tdiv 4294967296).toNat := by
      rw [readUInt32BE, if_pos (show off + 4 ≤ buf.length from by omega)]
      rw [show buf.getD off 0 = (n.tdiv 4294967296).toNat / 16777216 % 256 from by
          have e := wf 0 (by omega); simpa [be32] using e,
        show buf.getD (off + 1) 0 = (n.tdiv 4294967296).toNat / 65536 % 256 from by
          have e := wf 1 (by omega); simpa [be32] using e,
        show buf.getD (off + 2) 0 = (n.tdiv 4294967296).toNat / 256 % 256 from by
          have e := wf 2 (by omega); simpa [be32] using e,
        show buf.getD (off + 3) 0 = (n.tdiv 4294967296).toNat % 256 from by
          have e := wf 3 (by omega); simpa [be32] using e]
      congr 1
      omega
    have hlow : readUInt32BE buf (off + 4) = some (n.tmod 4294967296).toNat := by
      rw [readUInt32BE, if_pos (show off + 4 + 4 ≤ buf.length from by omega)]
      rw [show buf.getD (off + 4) 0 = (n.tmod 4294967296).toNat / 16777216 % 256 from by
          have e := ws 0 (by omega)
          rw [show off + 4 + 0 = off + 4 from by omega] at e
          simpa [be32] using e,
        show buf.getD (off + 4 + 1) 0 = (n.tmod 4294967296).toNat / 65536 % 256 from by
          have e := ws 1 (by omega); simpa [be32] using e,
        show buf.getD (off + 4 + 2) 0 = (n.tmod 4294967296).toNat / 256 % 256 from by
          have e := ws 2 (by omega); simpa [be32] using e,
        show buf.getD (off + 4 + 3) 0 = (n.tmod 4294967296).toNat % 256 from by
          have e := ws 3 (by omega); simpa [be32] using e]
      congr 1
      omega
    show (match readUInt32BE buf off with
      | none => none
      | some high => (readUInt32BE buf (off + 4)).map fun low =>
          Elem.prim .uint64 bl (.num (Int.ofNat (high * 4294967296 + low)))) =
      some (.prim .uint64 bl (.num n))
    rw [hhigh]
    show (readUInt32BE buf (off + 4)).map (fun low =>
        Elem.prim .uint64 bl (.num (Int.ofNat ((n.tdiv 4294967296).toNat * 4294967296 + low)))) =
      some (.prim .uint64 bl (.num n))
    rw [hlow, Option.map_some']
    rw [show Int.ofNat ((n.tdiv 4294967296).toNat * 4294967296 + (n.tmod 4294967296).toNat) = n
      from by
        rw [show Int.ofNat ((n.tdiv 4294967296).toNat * 4294967296 + (n.tmod 4294967296).toNat) =
          Int.ofNat (n.tdiv 4294967296).toNat * 4294967296 +
            Int.ofNat (n.tmod 4294967296).toNat from by
            simp [Int.ofNat_add, Int.ofNat_mul]]
        rw [show Int.ofNat (n.tdiv 4294967296).toNat = n / 4294967296 from by
          rw [hdq]; exact Int.toNat_of_nonneg (by omega)]
        rw [show Int.ofNat (n.tmod 4294967296).toNat = n % 4294967296 from by
          rw [hmq]; exact Int.toNat_of_nonneg (by omega)]
        omega]
  case uint8Array.arr vs =>
    cases v' <;> try exact Bool.noConfusion hs'
    rename_i vs'
    replace hs : (bl == vs.length && vs.all fun b => decide (0 ≤ b) && decide (b < 256)) = true := hs
    replace hs' : (bl == vs'.length && vs'.all fun b => decide (0 ≤ b) && decide (b < 256)) = true := hs'
    simp only [Bool.and_eq_true, beq_iff_eq, List.all_eq_true, decide_eq_true_eq] at hs hs'
    show (readU8s buf off vs'.length).map (fun rs => Elem.prim .uint8Array bl (.arr rs)) =
      some (.prim .uint8Array bl (.arr vs))
    rw [show vs'.length = vs.length from by omega]
    rw [loadU8s_roundtrip vs buf off hs.2 (by omega) (fun j hj => hw j (by omega))]
    rfl
  case uint16Array.arr vs =>
    cases v' <;> try exact Bool.noConfusion hs'
    rename_i vs'
    replace hs : (bl == 2 * vs.length && vs.all fun b => decide (0 ≤ b) && decide (b < 65536)) = true := hs
    replace hs' : (bl == 2 * vs'.length && vs'.all fun b => decide (0 ≤ b) && decide (b < 65536)) = true := hs'
    simp only [Bool.and_eq_true, beq_iff_eq, List.all_eq_true, decide_eq_true_eq] at hs hs'
    show (readU16s buf off vs'.length).map (fun rs => Elem.prim .uint16Array bl (.arr rs)) =
      some (.prim .uint16Array bl (.arr vs))
    rw [show vs'.length = vs.length from by omega]
    rw [loadU16s_roundtrip vs buf off hs.2 (by omega) (fun j hj => hw j (by omega))]
    rfl
  case uint32Array.arr vs =>
    cases v' <;> try exact Bool.noConfusion hs'
    rename_i vs'
    replace hs : (bl == 4 * vs.length && vs.all fun b => decide (0 ≤ b) && decide (b < 4294967296)) = true := hs
    replace hs' : (bl == 4 * vs'.length && vs'.all fun b => decide (0 ≤ b) && decide (b < 4294967296)) = true := hs'
    simp only [Bool.and_eq_true, beq_iff_eq, List.all_eq_true, decide_eq_true_eq] at hs hs'
    show (readU32s buf off vs'.length).map (fun rs => Elem.prim .uint32Array bl (.arr rs)) =
      some (.prim .uint32Array bl (.arr vs))
    rw [show vs'.length = vs.length from by omega]
    rw [loadU32s_roundtrip vs buf off hs.2 (by omega) (fun j hj => hw j (by omega))]
    rfl
  case paramSetArray.psa mask ss =>
    replace hp : ((PKind.paramSetArray == PKind.paramSetArray) && (bl == bl) &&
        (EValue.psa mask ss == v')) = true := hp
    simp only [Bool.and_eq_true, beq_iff_eq] at hp
    rw [← hp.2]
    rfl

/-- Loading a fresh struct that pairs with a serialized struct, over a
buffer holding the serialized struct's wire images at the running offsets,
restores the serialized struct exactly. -/
theorem loadEntries_roundtrip : ∀ (st st' : List Entry) (buf : List Nat) (off a0 : Nat),
    structPairOkB st st' = true →
    (st.all fun q => elemRoundOkB q.2.2) = true →
    (st'.all fun q => elemRoundOkB q.2.2) = true →
    offsetsRunningB a0 st = true →
    off + a0 + sumBL st ≤ buf.length →
    (∀ j, j < sumBL st → buf.getD (off + a0 + j) 0 =
      ((st.map fun q => elemWire q.2.2).flatten).getD j 0) →
    loadEntries st' buf off = some st := by
  intro st
  induction st with
  | nil =>
    intro st' buf off a0 hpair _ _ _ _ _
    cases st' with
    | nil => rfl
    | cons p r => exact Bool.noConfusion hpair
  | cons q rest ih =>
    intro st' buf off a0 hpair hok hok' hrun hb hw
    cases st' with
    | nil => exact Bool.noConfusion hpair
    | cons q' rest' =>
      obtain ⟨k, o, e⟩ := q
      obtain ⟨k', o', e'⟩ := q'
      replace hpair : ((k == k') && (o == o') && elemPairOkB e e' &&
          structPairOkB rest rest') = true := hpair
      simp only [Bool.and_eq_true, beq_iff_eq] at hpair
      obtain ⟨⟨⟨hk, ho'⟩, hpe⟩, hprest⟩ := hpair
      rw [List.all_cons, Bool.and_eq_true] at hok hok'
      rw [offsetsRunningB, Bool.and_eq_true, beq_iff_eq] at hrun
      obtain ⟨hoa, hrun⟩ := hrun
      cases e with
      | box => exact Bool.noConfusion hok.1
      | prim pk bl v =>
        cases e' with
        | box => exact Bool.noConfusion hok'.1
        | prim pk' bl' v' =>
          have hkbl : pk = pk' ∧ bl = bl' := by
            have htmp := hpe
            simp only [elemPairOkB, Bool.and_eq_true, beq_iff_eq] at htmp
            exact ⟨htmp.1.1, htmp.1.2⟩
          obtain ⟨hpk, hbl⟩ := hkbl
          subst hpk
          subst hbl
          subst ho'
          subst hoa
          have hsum : sumBL ((k, o, Elem.prim pk bl v) :: rest) = bl + sumBL rest := by
            simp [sumBL, elemByteLength]
          rw [hsum] at hb
      -- no more a0: offsets run from o
          have hwl : (wirePrim pk bl v).length = bl := wirePrim_length pk bl v hok.1
          have hload : loadElem (Elem.prim pk bl v') buf (off + o) = some (Elem.prim pk bl v) := by
            rw [loadElem]
            exact loadPrim_roundtrip pk bl v v' buf (off + o) hok.1 hok'.1 hpe (by omega)
              (fun j hj => by
                have e2 := hw j (by omega)
                rw [List.map_cons, List.flatten_cons] at e2
                rw [List.getD_append _ _ _ _ (by
                  rw [show (elemWire (Elem.prim pk bl v)).length = bl from hwl]
                  omega)] at e2
                exact e2)
          have hrest2 : loadEntries rest' buf off = some rest := by
            refine ih rest' buf off (o + bl) hprest hok.2 hok'.2
              (by simpa [elemByteLength] using hrun) (by omega) (fun j hj => ?_)
            have e2 := hw (bl + j) (by omega)
            rw [show off + o + (bl + j) = off + (o + bl) + j from by omega] at e2
            rw [List.map_cons, List.flatten_cons] at e2
            rw [List.getD_append_right _ _ _ _ (by
              rw [show (elemWire (Elem.prim pk bl v)).length = bl from hwl]
              omega)] at e2
            rw [e2]
            congr 1
            rw [show (elemWire (Elem.prim pk bl v)).length = bl from hwl]
            omega
          rw [loadEntries, hload, hrest2, ← hk]

/-- A key already present when the constructor loop starts would make the
loop throw on reaching its descriptor, so on success no descriptor's name is
in the accumulator. -/
theorem buildStruct_keys (specCfg cfg : Config) : ∀ (ds : List Descr) (acc : List Entry)
    (off : Nat) (out : List Entry × Nat),
    buildStruct specCfg cfg acc off ds = some out →
    ∀ d ∈ ds, hasKeyL acc d.name = false := by
  intro ds
  induction ds with
  | nil => intro acc off out _ d hd; exact absurd hd (List.not_mem_nil d)
  | cons d0 ds ih =>
    intro acc off out h d hd
    rw [buildStruct] at h
    by_cases hk : hasKeyL acc d0.name = true
    · rw [if_pos hk] at h; exact Option.noConfusion h
    · rw [if_neg hk] at h
      rw [Bool.not_eq_true] at hk
      cases hne : newElem d0.kind (chooseValue specCfg cfg d0) with
      | none => rw [hne] at h; exact Option.noConfusion h
      | some e =>
        rw [hne] at h
        rcases List.mem_cons.mp hd with he | hmem
        · rw [he]; exact hk
        · have h2 := ih _ _ _ h d hmem
          rw [hasKeyL, List.any_append, Bool.or_eq_false_iff] at h2
          rw [hasKeyL]
          exact h2.1

/-- The constructor loop appends to its accumulator, and on success each
descriptor whose name is fresh in the accumulator ends up, under its name,
with the element instantiated from the selected value
(`chooseValue`, i.e. the merged config entry if it is truthy, the schema
default otherwise). -/
theorem buildStruct_find (specCfg cfg : Config) : ∀ (ds : List Descr) (acc : List Entry)
    (off : Nat) (st : List Entry) (total : Nat),
    buildStruct specCfg cfg acc off ds = some (st, total) →
    (∃ tail, st = acc ++ tail) ∧
    ∀ d ∈ ds, hasKeyL acc d.name = false →
      ∃ o e, structFind st d.name = some (o, e) ∧
        newElem d.kind (chooseValue specCfg cfg d) = some e := by
  intro ds
  induction ds with
  | nil =>
    intro acc off st total h
    rw [buildStruct] at h
    injection h with h
    injection h with h1 h2
    exact ⟨⟨[], by rw [← h1]; simp⟩, fun d hd => absurd hd (List.not_mem_nil d)⟩
  | cons d0 ds ih =>
    intro acc off st total h
    rw [buildStruct] at h
    by_cases hk : hasKeyL acc d0.name = true
    · rw [if_pos hk] at h; exact Option.noConfusion h
    · rw [if_neg hk] at h
      rw [Bool.not_eq_true] at hk
      cases hne : newElem d0.kind (chooseValue specCfg cfg d0) with
      | none => rw [hne] at h; exact Option.noConfusion h
      | some e0 =>
        rw [hne] at h
        obtain ⟨⟨tail, htail⟩, hfind⟩ := ih _ _ _ _ h
        have hfresh := buildStruct_keys specCfg cfg ds _ _ _ h
        constructor
        · exact ⟨(d0.name, off, e0) :: tail, by rw [htail, List.append_assoc]; rfl⟩
        · intro d hd hka
          rcases List.mem_cons.mp hd with he | hmem
          · subst he
            refine ⟨off, e0, ?_, hne⟩
            rw [structFind, htail, List.find?_append, List.find?_append]
            rw [show acc.find? (fun e => e.1 == d.name) = none from by
              rw [List.find?_eq_none]
              intro x hx
              rw [hasKeyL] at hka
              have := List.any_eq_false.mp hka x hx
              simpa using this]
            rw [Option.none_or]
            rw [show List.find? (fun e => e.1 == d.name) [(d.name, off, e0)] =
              some (d.name, off, e0) from by simp [List.find?]]
            rfl
          · have hka2 := hfresh d hmem
            obtain ⟨o, e, hsf, hn⟩ := hfind d hmem hka2
            exact ⟨o, e, hsf, hn⟩

theorem sumBL_cons (q : Entry) (rest : List Entry) :
    sumBL (q :: rest) = elemByteLength q.2.2 + sumBL rest := by
  rw [sumBL, List.map_cons, List.sum_cons]
  rfl

theorem sumBL_snoc (acc : List Entry) (k : String) (o : Nat) (e : Elem) :
    sumBL (acc ++ [(k, o, e)]) = sumBL acc + elemByteLength e := by
  rw [sumBL, sumBL, List.map_append, List.sum_append]
  simp

/-- Appending an entry at offset `a + sumBL acc` keeps the offsets running. -/
theorem offsetsRunningB_append_one : ∀ (acc : List Entry) (a b : Nat) (k : String) (e : Elem),
    offsetsRunningB a acc = true → b = a + sumBL acc →
    offsetsRunningB a (acc ++ [(k, b, e)]) = true := by
  intro acc
  induction acc with
  | nil =>
    intro a b k e _ hb
    rw [List.nil_append, offsetsRunningB]
    rw [show b = a from by rw [hb, sumBL]; simp]
    simp [offsetsRunningB]
  | cons q rest ih =>
    intro a b k e h hb
    obtain ⟨k0, o0, e0⟩ := q
    rw [offsetsRunningB, Bool.and_eq_true] at h
    obtain ⟨ho, h⟩ := h
    have hsc : sumBL ((k0, o0, e0) :: rest) = elemByteLength e0 + sumBL rest := by
      rw [sumBL, List.map_cons, List.sum_cons]
      rfl
    rw [List.cons_append, offsetsRunningB, Bool.and_eq_true]
    exact ⟨ho, ih (a + elemByteLength e0) b k e h (by rw [hb, hsc]; omega)⟩

/-- Running offsets are monotone non-decreasing. -/
theorem chain_of_offsetsRunning : ∀ (st : List Entry) (a : Nat),
    offsetsRunningB a st = true →
    List.Chain' (fun x y => x ≤ y) (st.map fun q => q.2.1) := by
  intro st
  induction st with
  | nil => intro a _; simp
  | cons q rest ih =>
    intro a h
    obtain ⟨k0, o0, e0⟩ := q
    rw [offsetsRunningB, Bool.and_eq_true, beq_iff_eq] at h
    obtain ⟨ho, h⟩ := h
    rw [List.map_cons]
    cases rest with
    | nil => simp
    | cons q2 rest2 =>
      obtain ⟨k1, o1, e1⟩ := q2
      have h2 := h
      rw [offsetsRunningB, Bool.and_eq_true, beq_iff_eq] at h2
      obtain ⟨ho1, _⟩ := h2
      rw [List.map_cons, List.chain'_cons]
      constructor
      · show o0 ≤ o1
        omega
      · have h3 := ih (a + elemByteLength e0) h
        rw [List.map_cons] at h3
        exact h3

/-- The constructor loop keeps offsets running and returns the byte-length
sum as the total. -/
theorem buildStruct_offsets (specCfg cfg : Config) : ∀ (ds : List Descr) (acc : List Entry)
    (off : Nat) (st : List Entry) (total : Nat),
    buildStruct specCfg cfg acc off ds = some (st, total) →
    offsetsRunningB 0 acc = true → off = sumBL acc →
    offsetsRunningB 0 st = true ∧ total = sumBL st := by
  intro ds
  induction ds with
  | nil =>
    intro acc off st total h hrun hoff
    rw [buildStruct] at h
    injection h with h
    injection h with h1 h2
    subst h1
    exact ⟨hrun, by omega⟩
  | cons d0 ds ih =>
    intro acc off st total h hrun hoff
    rw [buildStruct] at h
    by_cases hk : hasKeyL acc d0.name = true
    · rw [if_pos hk] at h; exact Option.noConfusion h
    · rw [if_neg hk] at h
      cases hne : newElem d0.kind (chooseValue specCfg cfg d0) with
      | none => rw [hne] at h; exact Option.noConfusion h
      | some e =>
        rw [hne] at h
        refine ih _ _ _ _ h ?_ ?_
        · rw [hoff]
          exact offsetsRunningB_append_one acc 0 (sumBL acc) d0.name e hrun (by omega)
        · rw [sumBL_snoc]
          omega

/-- Every box reachable by construction and `add` satisfies the struct
invariant. -/
theorem built_structOk : ∀ (B : Box), Built B → structOkB B = true := by
  intro B hB
  induction hB with
  | new t cfg b h =>
    rw [mkBox] at h
    cases hs : BOXSPEC t with
    | none => rw [hs] at h; exact Option.noConfusion h
    | some spec =>
      rw [hs] at h
      replace h : (match buildStruct spec.config cfg [] 0
          (headerDescrs spec.box t ++ spec.body.getD []) with
        | none => none
        | some (st, total) => some (⟨t, 0, total, .undef, st⟩ : Box)) = some b := h
      cases hbs : buildStruct spec.config cfg [] 0
          (headerDescrs spec.box t ++ spec.body.getD []) with
      | none => rw [hbs] at h; exact Option.noConfusion h
      | some p =>
        rw [hbs] at h
        obtain ⟨st, total⟩ := p
        injection h with h
        obtain ⟨hrun, htot⟩ := buildStruct_offsets spec.config cfg _ [] 0 st total hbs rfl rfl
        rw [← h, structOkB]
        simp [hrun, htot]
  | add b k e b2 hb hadd ih =>
    rw [addBox] at hadd
    by_cases hk : hasKeyL b.struct k = true
    · rw [if_pos hk] at hadd; exact Option.noConfusion hadd
    · rw [if_neg hk] at hadd
      injection hadd with hadd
      rw [structOkB, Bool.and_eq_true, beq_iff_eq] at ih
      obtain ⟨hrun, hsum⟩ := ih
      rw [← hadd, structOkB, Bool.and_eq_true, beq_iff_eq]
      constructor
      · exact offsetsRunningB_append_one b.struct 0 b.byteLength k e hrun (by omega)
      · show b.byteLength + elemByteLength e = sumBL (b.struct ++ [(k, b.byteLength, e)])
        rw [sumBL_snoc]
        omega

theorem char_digit_toNat (d : Nat) (h : d < 10) : (Char.ofNat (48 + d)).toNat = 48 + d := by
  interval_cases d <;> rfl

theorem decVal_append_digit (l : List Char) (c : Char) :
    decVal (l ++ [c]) = 10 * decVal l + (c.toNat - 48) := by
  rw [decVal, decVal, List.foldl_append]
  rfl

/-- `decVal` is a left inverse of the fuelled digit rendering. -/
theorem decVal_decDigits : ∀ (fuel n : Nat), n ≤ fuel → decVal (decDigitsF fuel n) = n := by
  intro fuel
  induction fuel with
  | zero =>
    intro n h
    have h0 : n = 0 := by omega
    subst h0
    rfl
  | succ f ih =>
    intro n h
    rw [decDigitsF]
    by_cases h0 : n = 0
    · rw [if_pos h0, h0]
      rfl
    · rw [if_neg h0, decVal_append_digit, ih (n / 10) (by omega),
        char_digit_toNat (n % 10) (by omega)]
      omega

/-- Decimal rendering is injective. -/
theorem decStr_inj (a b : Nat) (h : decStr a = decStr b) : a = b := by
  rw [decStr, decStr] at h
  by_cases ha : a = 0 <;> by_cases hb : b = 0
  · omega
  · rw [if_pos ha, if_neg hb] at h
    have h2 := congrArg String.data h
    have h3 := congrArg decVal h2
    rw [show decVal (String.data "0") = 0 from rfl] at h3
    rw [show (String.mk (decDigitsF b b)).data = decDigitsF b b from rfl] at h3
    rw [decVal_decDigits b b (Nat.le_refl b)] at h3
    omega
  · rw [if_neg ha, if_pos hb] at h
    have h2 := congrArg String.data h
    have h3 := congrArg decVal h2
    rw [show decVal (String.data "0") = 0 from rfl] at h3
    rw [show (String.mk (decDigitsF a a)).data = decDigitsF a a from rfl] at h3
    rw [decVal_decDigits a a (Nat.le_refl a)] at h3
    omega
  · rw [if_neg ha, if_neg hb] at h
    have h2 := congrArg String.data h
    have h3 := congrArg decVal h2
    rw [show (String.mk (decDigitsF a a)).data = decDigitsF a a from rfl,
      show (String.mk (decDigitsF b b)).data = decDigitsF b b from rfl] at h3
    rw [decVal_decDigits a a (Nat.le_refl a), decVal_decDigits b b (Nat.le_refl b)] at h3
    exact h3

/-- The synthetic `box_${i}` keys are pairwise distinct. -/
theorem boxKey_inj (m n : Nat) (h : boxKey m = boxKey n) : m = n := by
  rw [boxKey, boxKey] at h
  have h2 := congrArg String.data h
  rw [show ("box_" ++ decStr m).data = "box_".data ++ (decStr m).data from rfl,
    show ("box_" ++ decStr n).data = "box_".data ++ (decStr n).data from rfl] at h2
  exact decStr_inj m n (String.ext (List.append_cancel_left h2))

/-- One `Container.parse` iteration on the zero-size `mdat` header appends a
fresh `box_${boxSize}` child and recurses on the SAME data
(`data.slice(box.get('size'))` with `size = 0` drops nothing), so the loop
consumes any amount of fuel without terminating or raising. -/
theorem parse_zero_mdat_loops : ∀ (fuel : Nat) (self : Box),
    (∀ m, self.boxSize ≤ m → hasKeyL self.struct (boxKey m) = false) →
    parseFuel fuel self zeroSizeMdat = .fuelOut := by
  intro fuel
  induction fuel with
  | zero => intro self _; rfl
  | succ f ih =>
    intro self hinv
    have hstep : parseFuel (f + 1) self zeroSizeMdat =
        (match appendBox self mdatLoaded with
          | none => ParseResult.err
          | some self1 =>
            match parseFuel f self1 zeroSizeMdat with
            | .ok selfF rest => .ok selfF rest
            | r => r) := rfl
    have happ : appendBox self mdatLoaded = some
        { self with
          struct := self.struct ++ [(boxKey self.boxSize, self.byteLength, mdatLoaded.toElem)]
          byteLength := self.byteLength + 8
          boxSize := self.boxSize + 1 } := by
      rw [appendBox, addBox, hinv self.boxSize (Nat.le_refl _)]
      rfl
    have hinv1 : ∀ m, self.boxSize + 1 ≤ m →
        hasKeyL (self.struct ++ [(boxKey self.boxSize, self.byteLength, mdatLoaded.toElem)])
          (boxKey m) = false := by
      intro m hm
      rw [hasKeyL, List.any_append, Bool.or_eq_false_iff]
      refine ⟨hinv m (by omega), ?_⟩
      simp only [List.any_cons, List.any_nil, Bool.or_false]
      rw [beq_eq_false_iff_ne]
      intro hEq
      have h2 := boxKey_inj _ _ hEq
      omega
    rw [hstep]
    simp only [happ]
    rw [ih _ hinv1]

/-- C9: `Box::new("ftyp")` with no config overrides has byte length 20 and
serializes via `buffer()` to exactly the 20 bytes
`00 00 00 14 66 74 79 70 69 73 6F 6D 00 00 00 00 6D 70 34 31`
(size 20, type `ftyp`, major_brand `isom`, minor_version 0,
compatible_brands `mp41`). -/
theorem c9_ftyp_buffer :
    ((mkBox "ftyp" []).bind (bufferB 32)).map (fun p => p.2) = some ftypBytes ∧
    (mkBox "ftyp" []).map Box.byteLength = some 20 :=
  ⟨rfl, rfl⟩

/-- C2 (evaluation at the failing input): feeding the 61-byte `moov`
fixture — exactly one `avcC` box with profile bytes `4d 00 29` and one `esds`
box whose on-wire AudioSpecificConfig byte is `0x11` — to `Container.parse`
yields the video track `avc1.4d0029` as claimed, but the audio track is
`mp4a.40.0`, not `mp4a.40.2`: the `audioConfigBytes` element is constructed
with the default `[]`, `UInt8Array.load` iterates over the stored value's
length and therefore reads nothing, and `undefined >>> 3` is 0. -/
theorem c2_parse_tracks :
    parseTracks (parseFuel 16 fileBox moov61) =
      some [⟨"video", "avc1.4d0029"⟩, ⟨"audio", "mp4a.40.0"⟩] ∧
    (⟨"audio", "mp4a.40.0"⟩ : MediaTrack) ≠ ⟨"audio", "mp4a.40.2"⟩ :=
  ⟨rfl, by decide⟩

/-- C3 (counterexample): the claim fails for a present-but-falsy config
entry.  Constructing `mvhd` with `{timescale: 0}` yields a `timescale`
element whose value is the schema default 1000, not the merged config entry
0, because the constructor tests `if (this.config[key])`, which is false for
the number 0. -/
theorem c3_falsy_override_cex :
    ((mkBox "mvhd" [("timescale", EValue.num 0)]).bind
      (fun b => getValue b "timescale")) = some (EValue.num 1000) ∧
    EValue.num 1000 ≠ EValue.num 0 :=
  ⟨rfl, by decide⟩

/-- C4 (counterexample): the round trip fails for a non-container box all of
whose fields are of readable element kinds.  `B = Box::new("esds",
{audioConfigBytes: [0x11]})` has only `UInt8`, `UInt16BE`, `UInt32BE` and
`UInt8Array` fields, yet `B' = Box::new("esds")` declares
`audioConfigBytes` with length 0, so after `B'.load(B.buffer(), 0)` the
fields following `audioConfigBytes` are read at offsets shifted by one:
`B'.get("SLConfigDescrTag")` is 17 (the stray AudioSpecificConfig byte)
while `B.get("SLConfigDescrTag")` is 6. -/
theorem c4_roundtrip_cex :
    (do
      let b ← mkBox "esds" [("audioConfigBytes", EValue.arr [17])]
      let p ← bufferB 32 b
      let fresh ← mkBox "esds" []
      let b2 ← boxLoad fresh p.2 0
      getValue b2 "SLConfigDescrTag") = some (EValue.num 17) ∧
    ((mkBox "esds" [("audioConfigBytes", EValue.arr [17])]).bind
      (fun b => getValue b "SLConfigDescrTag")) = some (EValue.num 6) ∧
    ((mkBox "esds" [("audioConfigBytes", EValue.arr [17])]).map
      (fun b => (b.struct.all fun e => elemReadableB e.2.2) &&
        !(BOXSPEC "esds").elim true BoxSpec.is_container)) = some true ∧
    EValue.num 17 ≠ EValue.num 6 :=
  ⟨rfl, rfl, rfl, by decide⟩

/-- C5 (counterexample): the claim fails as stated because the `type` header
field can be overridden by config.  For `B = Box::new("ftyp", {type:
"abcd"})`, `B.type` is `"ftyp"` but `buffer()[4..8]` holds the ASCII of
`"abcd"`. -/
theorem c5_type_attr_cex :
    (do
      let b ← mkBox "ftyp" [("type", EValue.str "abcd")]
      let p ← bufferB 32 b
      pure ((p.2.drop 4).take 4)) = some [97, 98, 99, 100] ∧
    (mkBox "ftyp" [("type", EValue.str "abcd")]).map Box.type = some "ftyp" ∧
    asciiBytes "ftyp" ≠ [97, 98, 99, 100] :=
  ⟨rfl, rfl, by decide⟩

/-- C4 (corrected): the round trip holds under the conditions `c4ReadyB`:
the serialized box `B` has a `size` field and satisfies the struct and
value-range invariants, and the freshly constructed box pairs with `B`'s
size-assigned struct entry for entry (same names, offsets, kinds and byte
lengths — in particular the same array lengths, which the unconditional
claim lacks).  Then `B.buffer()` followed by `Bf.load(buffer, 0)` makes the
fresh box's struct exactly the serialized one. -/
theorem c4_roundtrip_corrected (B Bf : Box) (h : c4ReadyB B Bf = true) : C4Concl B Bf := by
  rw [c4ReadyB] at h
  split at h
  · exact Bool.noConfusion h
  · rename_i st1 hset
    simp only [Bool.and_eq_true, beq_iff_eq, decide_eq_true_eq] at h
    obtain ⟨⟨⟨⟨⟨⟨⟨⟨hstOk, hlt⟩, hok1⟩, hokf⟩, hpair⟩, hT⟩, hBS⟩, hBL⟩, hV⟩ := h
    rw [structOkB, Bool.and_eq_true, beq_iff_eq] at hstOk
    obtain ⟨hrunB, hsumB⟩ := hstOk
    have hsk := setFirstS_skeleton _ _ _ _ hset
    have hrun1 : offsetsRunningB 0 st1 = true := by
      rw [offsetsRunningB_congr st1 B.struct hsk 0]
      exact hrunB
    have hsum1 : sumBL st1 = B.byteLength := by
      rw [sumBL_congr st1 B.struct hsk]
      omega
    refine ⟨{B with struct := st1}, (st1.map fun q => elemWire q.2.2).flatten,
      {Bf with struct := st1}, bufferB_wires B st1 hset hok1 hrun1 hsum1, ?_, ?_⟩
    · rw [boxLoad]
      rw [loadEntries_roundtrip st1 Bf.struct _ 0 0 hpair hok1 hokf hrun1
        (by rw [elemWire_flatten_length st1 hok1]; omega)
        (fun j hj => by rw [show 0 + 0 + j = j from by omega])]
      rfl
    · rw [show Bf.type = B.type from hT, show Bf.boxSize = B.boxSize from hBS,
        show Bf.byteLength = B.byteLength from hBL, show Bf.value = B.value from hV]

/-- C4 witness: the `mfhd` box with an overridden sequence number round-trips
into a freshly constructed `mfhd` box. -/
theorem c4_roundtrip_witness : C4Concl mfhdB mfhdB0 :=
  c4_roundtrip_corrected mfhdB mfhdB0 (by decide)

/-- C5 (corrected): under `c5ReadyB` — the box has the standard
`size`/`type` header fields with the `type` field holding the box's own type
attribute, plus the struct and value-range invariants — serialization first
assigns `size := byte_length`, and the buffer starts with the big-endian u32
`byte_length` followed by the four ASCII bytes of `type`. -/
theorem c5_header_bytes (B : Box) (h : c5ReadyB B = true) :
    ∃ Bw buf, bufferB (B.struct.length + 1) B = some (Bw, buf) ∧
      buf.length = B.byteLength ∧
      readUInt32BE buf 0 = some B.byteLength ∧
      buf.take 4 = be32 B.byteLength ∧
      (buf.drop 4).take 4 = asciiBytes B.type := by
  rw [c5ReadyB] at h
  simp only [Bool.and_eq_true, decide_eq_true_eq] at h
  obtain ⟨⟨⟨hsth, hstOk⟩, hlt⟩, hm⟩ := h
  split at hm
  · exact Bool.noConfusion hm
  · rename_i st1 hset
    rw [structOkB, Bool.and_eq_true, beq_iff_eq] at hstOk
    obtain ⟨hrunB, hsumB⟩ := hstOk
    rw [sizeTypeHeaderB] at hsth
    split at hsth
    case h_2 => exact Bool.noConfusion hsth
    case h_1 o1 nz o2 bl s rest heq =>
      simp only [Bool.and_eq_true, beq_iff_eq, List.all_eq_true, decide_eq_true_eq] at hsth
      obtain ⟨⟨⟨⟨⟨⟨⟨h01, h24⟩, hbl4⟩, hsB⟩, hs4⟩, hchars⟩, hrest8⟩, hbl8⟩ := hsth
      subst h01
      subst h24
      subst hbl4
      rw [heq] at hset
      have hset0 := hset
      replace hset : some (("size", 0, Elem.prim .uint32 4 (.num (Int.ofNat B.byteLength))) ::
          ("type", 4, Elem.prim .charArray 4 (.str s)) :: rest) = some st1 := hset
      injection hset with hst1
      subst hst1
      rw [← heq] at hset0
      have hsk := setFirstS_skeleton "size" (.num (Int.ofNat B.byteLength)) B.struct _ hset0
      have hrun1 : offsetsRunningB 0 (("size", 0, Elem.prim .uint32 4
          (.num (Int.ofNat B.byteLength))) ::
          ("type", 4, Elem.prim .charArray 4 (.str s)) :: rest) = true := by
        rw [offsetsRunningB_congr _ B.struct hsk 0]
        exact hrunB
      have hsum1 : sumBL (("size", 0, Elem.prim .uint32 4 (.num (Int.ofNat B.byteLength))) ::
          ("type", 4, Elem.prim .charArray 4 (.str s)) :: rest) = B.byteLength := by
        rw [sumBL_congr _ B.struct hsk]
        omega
      have hwlen : (((("size", 0, Elem.prim .uint32 4 (.num (Int.ofNat B.byteLength))) ::
          ("type", 4, Elem.prim .charArray 4 (.str s)) :: rest).map
            fun q => elemWire q.2.2).flatten).length = B.byteLength := by
        rw [elemWire_flatten_length _ hm, hsum1]
      have hbuf : ((("size", 0, Elem.prim .uint32 4 (.num (Int.ofNat B.byteLength))) ::
          ("type", 4, Elem.prim .charArray 4 (.str s)) :: rest).map
            fun q => elemWire q.2.2).flatten =
          be32 B.byteLength ++ ((List.range 4).map (charByteAt s) ++
            ((rest.map fun q => elemWire q.2.2).flatten)) := by
        rw [List.map_cons, List.map_cons, List.flatten_cons, List.flatten_cons]
        rfl
      refine ⟨_, _, bufferB_wires B _ hset0 hm hrun1 hsum1, hwlen, ?_, ?_, ?_⟩
      · have hg0 : (((("size", 0, Elem.prim .uint32 4 (.num (Int.ofNat B.byteLength))) ::
            ("type", 4, Elem.prim .charArray 4 (.str s)) :: rest).map
              fun q => elemWire q.2.2).flatten).getD 0 0 =
            B.byteLength / 16777216 % 256 := by
          rw [hbuf, List.getD_append _ _ _ _ (by simp [be32])]
          simp [be32]
        have hg1 : (((("size", 0, Elem.prim .uint32 4 (.num (Int.ofNat B.byteLength))) ::
            ("type", 4, Elem.prim .charArray 4 (.str s)) :: rest).map
              fun q => elemWire q.2.2).flatten).getD (0 + 1) 0 =
            B.byteLength / 65536 % 256 := by
          rw [hbuf, List.getD_append _ _ _ _ (by simp [be32])]
          simp [be32]
        have hg2 : (((("size", 0, Elem.prim .uint32 4 (.num (Int.ofNat B.byteLength))) ::
            ("type", 4, Elem.prim .charArray 4 (.str s)) :: rest).map
              fun q => elemWire q.2.2).flatten).getD (0 + 2) 0 =
            B.byteLength / 256 % 256 := by
          rw [hbuf, List.getD_append _ _ _ _ (by simp [be32])]
          simp [be32]
        have hg3 : (((("size", 0, Elem.prim .uint32 4 (.num (Int.ofNat B.byteLength))) ::
            ("type", 4, Elem.prim .charArray 4 (.str s)) :: rest).map
              fun q => elemWire q.2.2).flatten).getD (0 + 3) 0 =
            B.byteLength % 256 := by
          rw [hbuf, List.getD_append _ _ _ _ (by simp [be32])]
          simp [be32]
        rw [readUInt32BE, if_pos (by rw [hwlen]; omega)]
        rw [hg0, hg1, hg2, hg3]
        rw [show 16777216 * (B.byteLength / 16777216 % 256) +
          65536 * (B.byteLength / 65536 % 256) +
          256 * (B.byteLength / 256 % 256) + B.byteLength % 256 = B.byteLength from by omega]
      · rw [hbuf, List.take_left' (by simp [be32])]
      · rw [hbuf, List.drop_left' (by simp [be32]), List.take_left' (by simp)]
        rw [← hsB, ← hs4]
        exact charWire_eq_ascii s hchars

/-- C5 witness: the default `ftyp` box satisfies the conditions, so its
buffer starts with `00 00 00 14` and the ASCII of `ftyp`. -/
theorem c5_header_bytes_witness :
    ∃ Bw buf, bufferB (ftypB.struct.length + 1) ftypB = some (Bw, buf) ∧
      buf.length = ftypB.byteLength ∧
      readUInt32BE buf 0 = some ftypB.byteLength ∧
      buf.take 4 = be32 ftypB.byteLength ∧
      (buf.drop 4).take 4 = asciiBytes ftypB.type :=
  c5_header_bytes ftypB (by decide)

/-- C3 (corrected): at construction, every field descriptor of the header
and body schema materializes under its name as the element instantiated from
`chooseValue` — the merged config entry (caller over schema) when that entry
is present AND truthy, and the schema default otherwise.  The unconditional
"present, including falsy" reading of the spec fails (see the
counterexample): `if (this.config[key])` skips falsy overrides. -/
theorem c3_value_selection (t : String) (cfg : Config) (b : Box) (spec : BoxSpec)
    (hs : BOXSPEC t = some spec) (hb : mkBox t cfg = some b) :
    ∀ d ∈ headerDescrs spec.box t ++ spec.body.getD [],
      ∃ o e, structFind b.struct d.name = some (o, e) ∧
        newElem d.kind (chooseValue spec.config cfg d) = some e := by
  rw [mkBox, hs] at hb
  replace hb : (match buildStruct spec.config cfg [] 0
      (headerDescrs spec.box t ++ spec.body.getD []) with
    | none => none
    | some (st, total) => some (⟨t, 0, total, .undef, st⟩ : Box)) = some b := hb
  cases hbs : buildStruct spec.config cfg [] 0
      (headerDescrs spec.box t ++ spec.body.getD []) with
  | none => rw [hbs] at hb; exact Option.noConfusion hb
  | some p =>
    rw [hbs] at hb
    obtain ⟨st, total⟩ := p
    injection hb with hb
    intro d hd
    have h2 := (buildStruct_find spec.config cfg _ [] 0 st total hbs).2 d hd rfl
    rw [← hb]
    exact h2

/-- C3 witness: `tkhd` built with a truthy `track_ID` override stores, under
`track_ID`, the element instantiated from the selected value. -/
theorem c3_value_selection_witness :
    ∃ o e, structFind tkhdB.struct "track_ID" = some (o, e) ∧
      newElem DKind.uint32 (chooseValue tkhdSpec.config [("track_ID", EValue.num 2)]
        ⟨"track_ID", DKind.uint32, EValue.num 1⟩) = some e :=
  c3_value_selection "tkhd" [("track_ID", EValue.num 2)] tkhdB tkhdSpec rfl rfl
    ⟨"track_ID", DKind.uint32, EValue.num 1⟩ (by decide)

/-- C7: for every box built by construction and `add` operations, offsets
are the running byte-length sums (hence monotone non-decreasing in insertion
order) and `byte_length` is the total; and each `add` places the new field
at the prior `byte_length`, growing `byte_length` by exactly the new
element's byte length, so it remains the byte-length sum. -/
theorem c7_offset_invariants :
    (∀ B : Box, Built B → structOkB B = true ∧
      List.Chain' (fun x y => x ≤ y) (B.struct.map fun q => q.2.1)) ∧
    (∀ (B : Box) (k : String) (e : Elem) (B2 : Box),
      addBox B k e = some B2 → structOkB B = true →
      offsetOf B2 k = some B.byteLength ∧
      B2.byteLength = B.byteLength + elemByteLength e ∧
      B2.byteLength = sumBL B2.struct) := by
  constructor
  · intro B hB
    have hs := built_structOk B hB
    refine ⟨hs, ?_⟩
    rw [structOkB, Bool.and_eq_true] at hs
    exact chain_of_offsetsRunning B.struct 0 hs.1
  · intro B k e B2 hadd hok
    rw [structOkB, Bool.and_eq_true, beq_iff_eq] at hok
    obtain ⟨hrun, hsum⟩ := hok
    rw [addBox] at hadd
    by_cases hk : hasKeyL B.struct k = true
    · rw [if_pos hk] at hadd; exact Option.noConfusion hadd
    · rw [if_neg hk] at hadd
      injection hadd with hadd
      rw [Bool.not_eq_true] at hk
      refine ⟨?_, by rw [← hadd], ?_⟩
      · rw [← hadd]
        show ((List.find? (fun q => q.1 == k) (B.struct ++ [(k, B.byteLength, e)])).map
          (fun p => p.2)).map (fun p => p.1) = some B.byteLength
        rw [List.find?_append]
        rw [show B.struct.find? (fun q => q.1 == k) = none from by
          rw [List.find?_eq_none]
          intro x hx
          have h2 := List.any_eq_false.mp hk x hx
          simpa using h2]
        rw [Option.none_or]
        rw [show List.find? (fun q => q.1 == k) [(k, B.byteLength, e)] =
          some (k, B.byteLength, e) from by simp [List.find?]]
        rfl
      · rw [← hadd]
        show B.byteLength + elemByteLength e = sumBL (B.struct ++ [(k, B.byteLength, e)])
        rw [sumBL_snoc]
        omega

/-- C7 witness: the default `ftyp` box is built, satisfies the struct
invariant, and its offsets are monotone. -/
theorem c7_offset_invariants_witness :
    structOkB ftypB = true ∧
    List.Chain' (fun x y => x ≤ y) (ftypB.struct.map fun q => q.2.1) :=
  c7_offset_invariants.1 ftypB (Built.new "ftyp" [] ftypB rfl)

/-- C10: `Box.set(key, value)` mutates only the value of the first (unique)
element named `key`: the box's type, boxSize, byte_length and value
attributes are unchanged, the struct is the old struct with just that
entry's element value replaced (same name and offset), and the element's
stored byte length is untouched — stale rather than recomputed. -/
theorem c10_set_value_frame (b : Box) (k : String) (v : EValue) (b2 : Box)
    (h : setBox b k v = some b2) :
    b2.type = b.type ∧ b2.boxSize = b.boxSize ∧ b2.byteLength = b.byteLength ∧
    b2.value = b.value ∧
    ∃ i o e, b.struct[i]? = some (k, o, e) ∧
      (∀ j, j < i → ∀ q, b.struct[j]? = some q → q.1 ≠ k) ∧
      b2.struct = b.struct.set i (k, o, elemSetValue e v) ∧
      elemByteLength (elemSetValue e v) = elemByteLength e := by
  rw [setBox] at h
  cases hs : setFirstS b.struct k v with
  | none => rw [hs] at h; exact Option.noConfusion h
  | some st' =>
    rw [hs] at h
    injection h with h
    obtain ⟨i, o, e, h1, h2, h3⟩ := setFirstS_eq k v b.struct st' hs
    rw [← h]
    exact ⟨rfl, rfl, rfl, rfl, i, o, e, h1, h2, by show st' = _; rw [h3],
      by cases e <;> rfl⟩

/-- C10 witness: setting `major_brand` of the default `ftyp` box to an
8-character string changes only that element's value; its byte length stays
4 and the box's byte length stays 20. -/
theorem c10_set_value_frame_witness :
    ftypSet.type = ftypB.type ∧ ftypSet.boxSize = ftypB.boxSize ∧
    ftypSet.byteLength = ftypB.byteLength ∧ ftypSet.value = ftypB.value ∧
    ∃ i o e, ftypB.struct[i]? = some ("major_brand", o, e) ∧
      (∀ j, j < i → ∀ q, ftypB.struct[j]? = some q → q.1 ≠ "major_brand") ∧
      ftypSet.struct = ftypB.struct.set i
        ("major_brand", o, elemSetValue e (.str "abcdefgh")) ∧
      elemByteLength (elemSetValue e (.str "abcdefgh")) = elemByteLength e :=
  c10_set_value_frame ftypB "major_brand" (.str "abcdefgh") ftypSet rfl

/-- C6: for every `0 ≤ v < 2^53` the `UInt64BE` element serializes `v` as
the two big-endian u32 halves `high = floor(v / 2^32)` and
`low = v - high * 2^32`, reading the eight bytes back gives exactly `v`;
and `Box::new("tfdt")` has byte length 20, version byte `01` at offset 8,
and round-trips `baseMediaDecodeTime = 0x1_0000_0000` to exactly
`4294967296`. -/
theorem c6_uint64_roundtrip :
    (∀ v : Int, 0 ≤ v → v < 9007199254740992 → C6WireProp v) ∧ C6TfdtProp := by
  constructor
  · intro v h0 h1
    have hdq : v.tdiv 4294967296 = v / 4294967296 := Int.tdiv_eq_ediv h0 (by norm_num)
    have hmq : v.tmod 4294967296 = v % 4294967296 := Int.tmod_eq_emod h0 (by norm_num)
    have hBeq : (v - v.tdiv 4294967296 * 4294967296).toNat = (v.tmod 4294967296).toNat := by
      rw [hdq, hmq]
      omega
    refine ⟨?_, ?_, ?_, ?_⟩
    · rw [hdq]
      omega
    · rw [hdq]
      omega
    · rw [copyU64_splice (List.replicate 8 0) 0 v h0 h1 (by simp)]
      rw [show splice (List.replicate 8 0) 0 (be32 (v.tdiv 4294967296).toNat ++
          be32 (v.tmod 4294967296).toNat) = be32 (v.tdiv 4294967296).toNat ++
          be32 (v.tmod 4294967296).toNat from by
        rw [splice]
        simp [be32]]
      rw [hBeq]
    · have hs : elemRoundOkB (.prim .uint64 8 (.num v)) = true := by
        replace h1 := h1
        show (8 == 8 && decide (0 ≤ v) && decide (v < 9007199254740992)) = true
        simp [h0, h1]
      have hs' : elemRoundOkB (.prim .uint64 8 (.num 0)) = true := by decide
      have hp : elemPairOkB (.prim .uint64 8 (.num v)) (.prim .uint64 8 (.num 0)) = true := rfl
      exact loadPrim_roundtrip .uint64 8 (.num v) (.num 0)
        (be32 (v.tdiv 4294967296).toNat ++ be32 (v - v.tdiv 4294967296 * 4294967296).toNat) 0
        hs hs' hp (by simp [be32])
        (fun j hj => by
          rw [show (0:Nat) + j = j from by omega, hBeq]
          rfl)
  · exact ⟨rfl, rfl, rfl, rfl⟩

/-- C6 witness: the boundary value `2^32 + 1` splits into high `1`, low `1`
and round-trips exactly. -/
theorem c6_uint64_roundtrip_witness : C6WireProp 4294967297 :=
  c6_uint64_roundtrip.1 4294967297 (by decide) (by decide)

/-- C8: a `ParameterSetArray` with size mask `m` over byte-sequences
serializes as one u8 `m | n` followed, per set, by a u16BE length and the
set's bytes; its byte length is `1 + Σ (2 + len(ps_i))`; its `load` is a
no-op; and the `avcC` fixture body starts `E1 00 14`, the SPS bytes, `01`,
`00 04`, and the PPS bytes. -/
theorem c8_param_set_array :
    (∀ (mask : Nat) (ss : List (List Int)) (buf : List Nat) (off : Nat),
      Nat.lor mask ss.length < 256 →
      (∀ s ∈ ss, s.length < 65536 ∧ ∀ b ∈ s, 0 ≤ b ∧ b < 256) →
      off + psaByteLength ss ≤ buf.length →
      copyPrim .paramSetArray (psaByteLength ss) (.psa mask ss) buf off =
        some (splice buf off (psaWire mask ss)) ∧
      (psaWire mask ss).length = psaByteLength ss ∧
      psaByteLength ss = 1 + (ss.map fun s => 2 + s.length).sum) ∧
    (∀ (bl : Nat) (v : EValue) (buf : List Nat) (off : Nat),
      loadPrim .paramSetArray bl v buf off = some (.prim .paramSetArray bl v)) ∧
    C8AvcCProp := by
  refine ⟨?_, ?_, ?_⟩
  · intro mask ss buf off hm hs hb
    refine ⟨?_, psaWire_length mask ss, rfl⟩
    apply copyPrim_splice
    · show (psaByteLength ss == psaByteLength ss && decide (Nat.lor mask ss.length < 256) &&
        ss.all fun s => decide (s.length < 65536) &&
          s.all fun b => decide (0 ≤ b) && decide (b < 256)) = true
      simp only [beq_self_eq_true, Bool.true_and, Bool.and_eq_true, List.all_eq_true,
        decide_eq_true_eq]
      exact ⟨hm, hs⟩
    · exact hb
  · intro bl v buf off
    cases v <;> rfl
  · rfl

/-- C8 witness: the fixture SPS and PPS with mask `0xE0` satisfy the
conditions, giving the exact wire form and byte length `29`. -/
theorem c8_param_set_array_witness :
    copyPrim .paramSetArray (psaByteLength [spsFix, ppsFix]) (.psa 224 [spsFix, ppsFix])
        (List.replicate 64 0) 0 =
      some (splice (List.replicate 64 0) 0 (psaWire 224 [spsFix, ppsFix])) ∧
    (psaWire 224 [spsFix, ppsFix]).length = psaByteLength [spsFix, ppsFix] ∧
    psaByteLength [spsFix, ppsFix] = 1 + ([spsFix, ppsFix].map fun s => 2 + s.length).sum :=
  c8_param_set_array.1 224 [spsFix, ppsFix] (List.replicate 64 0) 0 (by decide) (by decide)
    (by decide)

/-- C1 (refuted): the zero-size `mdat` header has size field 0 — smaller
than the 8-byte Box header minimum, the case the spec says must fail with
`MalformedSize` — yet `Container.parse` neither raises any error nor
terminates: for EVERY fuel bound the loop is still running, because the code
has no size check at all and `data.slice(box.get('size'))` with size 0
leaves the buffer unchanged. -/
theorem c1_zero_size_parse_diverges :
    (∀ fuel, parseFuel fuel fileBox zeroSizeMdat = ParseResult.fuelOut) ∧
    readUInt32BE zeroSizeMdat 0 = some 0 ∧
    zeroSizeMdat.length = 8 ∧
    decode ((zeroSizeMdat.take 8).drop 4) = "mdat" :=
  ⟨fun fuel => parse_zero_mdat_loops fuel fileBox (fun _ _ => rfl), rfl, rfl, rfl⟩

end Isom
